import Mathlib

/-!
Verification of the nanobot proactive opportunity engine.

Shallow embedding of the Python sources:
  * `nanobot/memory/opportunity.py`   — the `Opportunity` data class,
  * `nanobot/memory/tracker.py`       — `OpportunityTracker`,
  * `nanobot/memory/smart_proactive.py` — `SmartProactiveService.pulse_check`,
  * `nanobot/heartbeat/service.py`    — the three scheduler loops,
  * `nanobot/memory/explorer_agent.py` — `ExplorerAgent.run`.

Modelling conventions:
  * Time is an integer number of minutes.  Python's
    `(datetime.now() - sent_time).days` floors towards minus infinity, so it
    is `Int.fdiv (now - sent) 1440`; `datetime.now().date()` is
    `Int.fdiv now 1440`; `total_seconds() / 60` on a difference of
    minute-valued instants is `now - last`.
  * The memory store (`client.set` / `client.get` / `client.list`) keeps
    JSON-serialised opportunity records at hierarchical URIs.
    `Opportunity.to_dict` / `Opportunity.from_dict` round-trip every field,
    so the store is modelled as an association list from URI to the record
    itself; `list(prefix)` returns the stored URIs under the prefix in
    store order.
  * The LLM provider, the delivery sink and fresh UUID generation are
    external collaborators; they enter the model as explicit inputs
    (response streams, per-attempt failure flags, fresh-id suppliers).
-/

namespace Nanobot

/-- Python `str.startswith`, on the character sequence of a string
(kernel-reducible, unlike `String.startsWith`). -/
def strStartsWith (s p : String) : Bool := p.data.isPrefixOf s.data

/-- Python `str.endswith`, on the character sequence of a string. -/
def strEndsWith (s p : String) : Bool := p.data.isSuffixOf s.data

/-- `OpportunitySource` from `opportunity.py`. -/
inductive OpportunitySource where
  | memory_user
  | memory_ai
  | dreamlife
  | follow_up
deriving DecidableEq, Repr

/-- `OpportunityStatus` from `opportunity.py`. -/
inductive OpportunityStatus where
  | pending
  | sent
  | completed
  | ignored
  | expired
deriving DecidableEq, Repr

/-- The `Opportunity` dataclass from `opportunity.py`.  Timestamps are
integer minutes (see the module conventions); `sent_at` and
`last_reminded_at` are nullable as in the source. -/
structure Opportunity where
  id : String := ""
  source : OpportunitySource := OpportunitySource.memory_user
  title : String := ""
  content : String := ""
  context : String := ""
  priority : Int := 50
  status : OpportunityStatus := OpportunityStatus.pending
  session_id : String := ""
  related_uri : String := ""
  dreamlife_event_id : String := ""
  created_at : Int := 0
  sent_at : Option Int := none
  last_reminded_at : Option Int := none
  reminder_count : Nat := 0
  parent_id : String := ""
  follow_up_interval_days : Int := 7
  tags : List String := []
deriving DecidableEq, Repr

/-- Minutes per day: the conversion used to model `timedelta.days` and
`datetime.date()`. -/
def minutesPerDay : Int := 1440

/-- Python `(a - b).days`: whole days between two minute instants,
flooring towards minus infinity as `timedelta` normalisation does. -/
def daysBetween (now sentTime : Int) : Int :=
  Int.fdiv (now - sentTime) minutesPerDay

/-- Python `datetime.now().date()`: the calendar day of a minute instant. -/
def dateOf (now : Int) : Int :=
  Int.fdiv now minutesPerDay

/-! ## OpportunityTracker (`tracker.py`) -/

/-- `OpportunityTracker.BASE_URI`. -/
def BASE_URI : String := "viking://user/proactive"

/-- URI written by `OpportunityTracker._save`. -/
def oppUri (id : String) : String :=
  BASE_URI ++ "/opportunities/" ++ id ++ ".json"

/-- URI written by `OpportunityTracker._save_to_sent`. -/
def sentUri (id : String) : String :=
  BASE_URI ++ "/sent/" ++ id ++ ".json"

/-- The memory store: URI ↦ serialised opportunity record, in insertion
order (an opaque collaborator with `get`/`set`/`list`). -/
abbrev Store := List (String × Opportunity)

/-- `client.get(uri)`: the value at the first matching key. -/
def storeGet : Store → String → Option Opportunity
  | [], _ => none
  | (k, w) :: rest, uri => if k == uri then some w else storeGet rest uri

/-- `client.set(uri, value)`: upsert, keeping the position of an existing
key so that listings are stable under updates. -/
def storeSet (s : Store) (uri : String) (v : Opportunity) : Store :=
  match s with
  | [] => [(uri, v)]
  | (k, w) :: rest =>
      if k == uri then (k, v) :: rest else (k, w) :: storeSet rest uri v

/-- `client.list(prefix)`: the URIs stored under a directory prefix, in
store order. -/
def storeList (s : Store) (pre : String) : List String :=
  (s.map (fun p => p.1)).filter (fun u => strStartsWith u (pre ++ "/"))

/-- The tracker's mutable state: the backing store plus the in-memory
`_cache` dictionary (`self._cache: dict[str, Opportunity]`). -/
structure TrackerState where
  store : Store
  cache : List (String × Opportunity)
deriving Repr, DecidableEq

/-- Dictionary lookup in `_cache`. -/
def cacheGet : List (String × Opportunity) → String → Option Opportunity
  | [], _ => none
  | (k', w) :: rest, k => if k' == k then some w else cacheGet rest k

/-- Dictionary insert into `_cache`. -/
def cacheSet (c : List (String × Opportunity)) (k : String) (v : Opportunity) :
    List (String × Opportunity) :=
  match c with
  | [] => [(k, v)]
  | (k', w) :: rest =>
      if k' == k then (k', v) :: rest else (k', w) :: cacheSet rest k v

/-- `OpportunityTracker._load_from_uri`: consult `_cache` keyed by the
full URI; on a miss fetch from the store and cache the result keyed by
the opportunity's `id`. -/
def load_from_uri (st : TrackerState) (uri : String) :
    Option Opportunity × TrackerState :=
  match cacheGet st.cache uri with
  | some opp => (some opp, st)
  | none =>
      match storeGet st.store uri with
      | some opp => (some opp, { st with cache := cacheSet st.cache opp.id opp })
      | none => (none, st)

/-- `OpportunityTracker._save`: write to the `opportunities` partition and
populate `_cache` keyed by `opportunity.id`. -/
def save (st : TrackerState) (opp : Opportunity) : TrackerState :=
  { store := storeSet st.store (oppUri opp.id) opp
    cache := cacheSet st.cache opp.id opp }

/-- `OpportunityTracker._save_to_sent`: write to the `sent` partition
(no cache update). -/
def save_to_sent (st : TrackerState) (opp : Opportunity) : TrackerState :=
  { st with store := storeSet st.store (sentUri opp.id) opp }

/-- `OpportunityTracker._is_duplicate`: tag-set intersection or equal
titles. -/
def is_duplicate (new existing : Opportunity) : Bool :=
  if new.tags.any (fun t => existing.tags.contains t) then true
  else if new.title == existing.title then true
  else false

/-- `OpportunityTracker._is_follow_up_due`: `existing.sent_at` present and
whole days elapsed at least `new.follow_up_interval_days`. -/
def is_follow_up_due (now : Int) (new existing : Opportunity) : Bool :=
  match existing.sent_at with
  | none => false
  | some sentTime => daysBetween now sentTime ≥ new.follow_up_interval_days

/-- One step of `_get_recent_sent`'s accumulation: load a URI (filtered to
`.json` by the caller) and keep the record when `sent_at` is within the
cutoff. -/
def recentSentFold (cutoff : Int) (acc : List Opportunity × TrackerState)
    (uri : String) : List Opportunity × TrackerState :=
  let l := load_from_uri acc.2 uri
  match l.1 with
  | some opp =>
      match opp.sent_at with
      | some sentTime =>
          if sentTime ≥ cutoff then (acc.1 ++ [opp], l.2) else (acc.1, l.2)
      | none => (acc.1, l.2)
  | none => (acc.1, l.2)

/-- `OpportunityTracker._get_recent_sent(days)`: list the `sent`
partition, keep `.json` URIs, load each, keep records whose `sent_at`
lies within the trailing window. -/
def get_recent_sent (now : Int) (days : Int) (st : TrackerState) :
    List Opportunity × TrackerState :=
  let uris := (storeList st.store (BASE_URI ++ "/sent")).filter
    (fun u => strEndsWith u ".json")
  let cutoff := now - days * minutesPerDay
  uris.foldl (recentSentFold cutoff) ([], st)

/-- The scan over recently sent records inside `should_send`: `true` means
some sent record triggers `return False` (a suppressing duplicate); the
follow-up branch `continue`s past a match when the follow-up is NOT yet
due — this is the branch of `tracker.py` lines 32–38, kept exactly as the
source has it. -/
def dupScan (now : Int) (opp : Opportunity) : List Opportunity → Bool
  | [] => false
  | s :: rest =>
      if is_duplicate opp s then
        if opp.source == OpportunitySource.follow_up &&
            !(is_follow_up_due now opp s) then
          dupScan now opp rest
        else
          true
      else
        dupScan now opp rest

/-- `OpportunityTracker.should_send`: returns the decision, the candidate
as mutated in place (the expiry branch assigns `opportunity.status`), and
the tracker state after `_get_recent_sent` and the possible `_save`. -/
def should_send (now : Int) (opp : Opportunity) (st : TrackerState) :
    Bool × Opportunity × TrackerState :=
  let r := get_recent_sent now 30 st
  if dupScan now opp r.1 then
    (false, opp, r.2)
  else if opp.status ≠ OpportunityStatus.pending then
    (false, opp, r.2)
  else if opp.reminder_count ≥ 3 then
    (false, { opp with status := OpportunityStatus.expired },
     save r.2 { opp with status := OpportunityStatus.expired })
  else
    (true, opp, r.2)

/-- `OpportunityTracker.mark_sent`: set `status=SENT`, stamp `sent_at`,
bump `reminder_count`, then `_save_to_sent` only. -/
def mark_sent (now : Int) (opp : Opportunity) (st : TrackerState) :
    Opportunity × TrackerState :=
  let opp' := { opp with
    status := OpportunityStatus.sent
    sent_at := some now
    reminder_count := opp.reminder_count + 1 }
  (opp', save_to_sent st opp')

/-- `OpportunityTracker.create_follow_up`: build the child opportunity and
`_save` it.  `freshId` and `now` stand for the `uuid4()` and
`datetime.now()` drawn inside `Opportunity.__post_init__`. -/
def create_follow_up (freshId : String) (now : Int)
    (original : Opportunity) (new_context : String) (st : TrackerState) :
    Opportunity × TrackerState :=
  let follow_up : Opportunity :=
    { id := freshId
      source := OpportunitySource.follow_up
      title := original.title
      content := new_context
      context := "跟进: " ++ original.title
      priority := original.priority
      status := OpportunityStatus.pending
      session_id := original.session_id
      created_at := now
      parent_id := original.id
      tags := original.tags
      follow_up_interval_days := original.follow_up_interval_days }
  (follow_up, save st follow_up)

/-- One step of `get_pending_opportunities`'s accumulation: load a URI and
keep the record when its status is `PENDING`. -/
def pendingFold (acc : List Opportunity × TrackerState) (uri : String) :
    List Opportunity × TrackerState :=
  let l := load_from_uri acc.2 uri
  match l.1 with
  | some opp =>
      if opp.status == OpportunityStatus.pending
      then (acc.1 ++ [opp], l.2) else (acc.1, l.2)
  | none => (acc.1, l.2)

/-- The loads performed by `get_pending_opportunities`, before sorting. -/
def pendingLoads (st : TrackerState) : List Opportunity × TrackerState :=
  let uris := (storeList st.store (BASE_URI ++ "/opportunities")).filter
    (fun u => strEndsWith u ".json")
  uris.foldl pendingFold ([], st)

/-- Stable insertion used to model Python's stable
`list.sort(key=priority, reverse=True)`: an element walks past every
earlier element of greater-or-equal priority, so equal-priority elements
keep their original relative order. -/
def insertDesc (x : Opportunity) : List Opportunity → List Opportunity
  | [] => [x]
  | y :: ys =>
      if y.priority ≥ x.priority then y :: insertDesc x ys else x :: y :: ys

/-- Python's `opportunities.sort(key=lambda x: x.priority, reverse=True)`:
a stable descending sort on `priority` alone. -/
def sortByPriorityDesc (l : List Opportunity) : List Opportunity :=
  l.foldl (fun acc x => insertDesc x acc) []

/-- `OpportunityTracker.get_pending_opportunities`: list the
`opportunities` partition, keep `.json` URIs, load each, keep `PENDING`
records, and sort by priority, higher first. -/
def get_pending_opportunities (st : TrackerState) :
    List Opportunity × TrackerState :=
  (sortByPriorityDesc (pendingLoads st).1, (pendingLoads st).2)

/-! ## SmartProactiveService (`smart_proactive.py`)

`pulse_check` is modelled as a function of the dispatcher state and a
per-tick environment describing the external collaborators: the instant
of the tick, the opportunities the Explorer (plus DreamLife) returns,
whether each `sender.send` call raises, and the fresh UUIDs drawn for
follow-up creation.  Message generation (`_generate_message`) returns
text consumed only by the sender, so its content is not modelled.
A sender exception propagates out of `pulse_check` (there is no
`try` around the send loop) and is caught by
`HeartbeatService._proactive_tick`; the model returns `Except`, with the
`error` payload carrying the state as mutated so far. -/

/-- The fields of `SmartProactiveConfig` (`memory/config.py`) that
`pulse_check` reads. -/
structure SmartProactiveCfg where
  enabled : Bool
  max_per_day : Nat
  explore_interval_minutes : Int
  follow_up_enabled : Bool

/-- Dispatcher state: the tracker, `self._today_count`
(a dict keyed by `datetime.date`) and `self._last_explore_time`. -/
structure PulseState where
  tracker : TrackerState
  today_count : List (Int × Nat)
  last_explore : Option Int
deriving Repr, DecidableEq

/-- `self._today_count.get(today, 0)`. -/
def countGet : List (Int × Nat) → Int → Nat
  | [], _ => 0
  | (k, v) :: rest, d => if k == d then v else countGet rest d

/-- `self._today_count[today] = n`. -/
def countSet (m : List (Int × Nat)) (d : Int) (n : Nat) : List (Int × Nat) :=
  match m with
  | [] => [(d, n)]
  | (k, v) :: rest => if k == d then (k, n) :: rest else (k, v) :: countSet rest d n

/-- External inputs of one tick. `sendFail k` tells whether the `k`-th
`sender.send` call of the tick raises; `fresh k` is the `uuid4()` drawn
for the follow-up created after the `k`-th successful send. -/
structure TickEnv where
  now : Int
  explored : List Opportunity
  sendFail : Nat → Bool
  fresh : Nat → String

/-- `SmartProactiveService._should_explore`. -/
def should_explore (cfg : SmartProactiveCfg) (now : Int)
    (lastExplore : Option Int) : Bool :=
  match lastExplore with
  | none => true
  | some t => now - t ≥ cfg.explore_interval_minutes

/-- `SmartProactiveService._explore_and_queue`: save every opportunity
returned by the Explorer (and DreamLife), then stamp
`self._last_explore_time`. -/
def explore_and_queue (env : TickEnv) (ps : PulseState) : PulseState :=
  { ps with
    tracker := env.explored.foldl save ps.tracker
    last_explore := some env.now }

/-- The send loop of `pulse_check` (steps 4–5): for each pending
opportunity, break once `today_count` reaches the cap, ask `should_send`,
and on acceptance send, `mark_sent`, and optionally create a follow-up.
The result carries the final tracker state, `today_count`,
`sent_messages`, and the number of messages actually delivered; a raising
`sender.send` aborts the whole loop, carrying the state mutated so far. -/
def sendLoop (cfg : SmartProactiveCfg) (env : TickEnv) :
    List Opportunity → TrackerState → Nat → Nat → List String → Nat →
    Except (TrackerState × Nat) (TrackerState × Nat × List String × Nat)
  | [], st, count, _, sentM, delivered => .ok (st, count, sentM, delivered)
  | opp :: rest, st, count, attempt, sentM, delivered =>
      if count ≥ cfg.max_per_day then .ok (st, count, sentM, delivered)
      else
        let r := should_send env.now opp st
        if r.1 then
          if env.sendFail attempt then .error (r.2.2, delivered)
          else
            let ms := mark_sent env.now r.2.1 r.2.2
            let st3 := if cfg.follow_up_enabled
              then (create_follow_up (env.fresh attempt) env.now ms.1 "" ms.2).2
              else ms.2
            sendLoop cfg env rest st3 (count + 1) (attempt + 1)
              (sentM ++ [ms.1.session_id]) (delivered + 1)
        else
          sendLoop cfg env rest r.2.2 count attempt sentM delivered

/-- Step 3 of `pulse_check`: explore if the interval has elapsed (the
lock is free for a single caller; `raceStep` below models contention). -/
def exploreStep (cfg : SmartProactiveCfg) (env : TickEnv) (ps : PulseState) :
    PulseState :=
  if should_explore cfg env.now ps.last_explore
  then explore_and_queue env ps else ps

/-- `SmartProactiveService.pulse_check`.  Note that
`self._today_count[today] = today_count` (step 6) runs only when no send
raised. -/
def pulse_check (cfg : SmartProactiveCfg) (env : TickEnv) (ps : PulseState) :
    Except (PulseState × Nat) (PulseState × List String × Nat) :=
  if !cfg.enabled then .ok (ps, [], 0)
  else
    if countGet ps.today_count (dateOf env.now) ≥ cfg.max_per_day
    then .ok (ps, [], 0)
    else
      match sendLoop cfg env
          (get_pending_opportunities (exploreStep cfg env ps).tracker).1
          (get_pending_opportunities (exploreStep cfg env ps).tracker).2
          (countGet ps.today_count (dateOf env.now)) 0 [] 0 with
      | .error (trE, delivered) =>
          .error ({ exploreStep cfg env ps with tracker := trE }, delivered)
      | .ok (trF, count, sentM, delivered) =>
          .ok ({ exploreStep cfg env ps with
                  tracker := trF
                  today_count := countSet (exploreStep cfg env ps).today_count
                    (dateOf env.now) count },
               sentM, delivered)

/-- `HeartbeatService._proactive_tick`: run `pulse_check` and swallow any
exception (`except Exception: logger.exception(...)`).  Returns the
resulting dispatcher state and the number of messages delivered. -/
def proactive_tick (cfg : SmartProactiveCfg) (env : TickEnv) (ps : PulseState) :
    PulseState × Nat :=
  match pulse_check cfg env ps with
  | .error (ps', d) => (ps', d)
  | .ok (ps', _, d) => (ps', d)

/-- A run of the dispatcher: successive proactive ticks, logging the
calendar day and delivered-message count of each tick. -/
def runTicks (cfg : SmartProactiveCfg) (ps : PulseState) :
    List TickEnv → PulseState × List (Int × Nat)
  | [] => (ps, [])
  | env :: rest =>
      let t := proactive_tick cfg env ps
      let r := runTicks cfg t.1 rest
      (r.1, (dateOf env.now, t.2) :: r.2)

/-- Messages delivered on calendar day `d` over a run's log. -/
def deliveredOn : List (Int × Nat) → Int → Nat
  | [], _ => 0
  | (a, b) :: rest, d => (if a == d then b else 0) + deliveredOn rest d

/-! ## Heartbeat scheduler loops (`heartbeat/service.py`)

Each of `_run_loop`, `_run_proactive_loop` and `_run_personality_loop` is
`while self._running: try: sleep; tick except CancelledError: break
except Exception: log`.  A loop is modelled over the finite trace of its
tick outcomes: a normal tick, a tick that raises, or a cancellation of
the sleeping task; the function yields the events the loop processes. -/

/-- Outcome of one iteration of a scheduler loop. -/
inductive TickOutcome where
  | ok
  | err
  | cancel
deriving DecidableEq, Repr

/-- What a loop iteration did. -/
inductive LoopEvent where
  | ticked
  | errorLogged
deriving DecidableEq, Repr

/-- One scheduler loop over its trace of tick outcomes: an exception is
logged and the loop continues; cancellation breaks out. -/
def runLoopEvents : List TickOutcome → List LoopEvent
  | [] => []
  | TickOutcome.ok :: rest => LoopEvent.ticked :: runLoopEvents rest
  | TickOutcome.err :: rest => LoopEvent.errorLogged :: runLoopEvents rest
  | TickOutcome.cancel :: _ => []

/-- The scheduler: three independent tasks (`_task`, `_proactive_task`,
`_personality_task`), each running its own loop over its own trace. -/
def schedulerRun (tHeartbeat tPulse tPersona : List TickOutcome) :
    List LoopEvent × List LoopEvent × List LoopEvent :=
  (runLoopEvents tHeartbeat, runLoopEvents tPulse, runLoopEvents tPersona)

/-! ## The exploration race (`pulse_check` steps 2–3, two concurrent ticks)

Two concurrent `pulse_check` callers contend on `self._explore_lock`.
In asyncio, interleaving happens only at `await` points: the first
`_should_explore()` check, acquiring the lock, and the body of
`_explore_and_queue` (which stamps `self._last_explore_time` as its last
statement, before the lock is released).  Acquiring the lock and the
synchronous double-check form one atomic step.  A caller is at one of
four points. -/

/-- Program counter of one `pulse_check` caller inside steps 2–3. -/
inductive CallerPc where
  | start
  | waitLock
  | exploring
  | done
deriving DecidableEq, Repr

/-- Shared state of the exploration race: `_last_explore_time`, the lock
holder, how many times `_explore_and_queue` has run, and both callers'
positions.  `false`/`true` name the two callers. -/
structure RaceState where
  lastExplore : Option Int
  lock : Option Bool
  exploreCount : Nat
  pcA : CallerPc
  pcB : CallerPc
deriving DecidableEq, Repr

/-- Read a caller's pc. -/
def RaceState.pc (s : RaceState) (c : Bool) : CallerPc :=
  if c then s.pcB else s.pcA

/-- Write a caller's pc. -/
def RaceState.setPc (s : RaceState) (c : Bool) (p : CallerPc) : RaceState :=
  if c then { s with pcB := p } else { s with pcA := p }

/-- One asyncio scheduling step of caller `c` at instant `now` with the
configured `explore_interval_minutes`:
`start` runs the first `_should_explore()`; `waitLock` acquires the free
lock and atomically re-checks (releasing at once when no longer due);
`exploring` finishes `_explore_and_queue`, stamping `_last_explore_time`
and releasing the lock.  A caller blocked on a held lock does nothing. -/
def raceStep (cfg : SmartProactiveCfg) (now : Int) (c : Bool)
    (s : RaceState) : RaceState :=
  match s.pc c with
  | CallerPc.start =>
      if should_explore cfg now s.lastExplore
      then s.setPc c CallerPc.waitLock
      else s.setPc c CallerPc.done
  | CallerPc.waitLock =>
      match s.lock with
      | some _ => s
      | none =>
          if should_explore cfg now s.lastExplore
          then { s.setPc c CallerPc.exploring with lock := some c }
          else s.setPc c CallerPc.done
  | CallerPc.exploring =>
      { s.setPc c CallerPc.done with
          lastExplore := some now
          lock := none
          exploreCount := s.exploreCount + 1 }
  | CallerPc.done => s

/-- Run a schedule (an arbitrary interleaving of the two callers). -/
def raceRun (cfg : SmartProactiveCfg) (now : Int) (sched : List Bool)
    (s : RaceState) : RaceState :=
  sched.foldl (fun st c => raceStep cfg now c st) s

/-- Both callers about to run `pulse_check` step 3 while exploration is
due (`_last_explore_time` unset), lock free. -/
def raceInit : RaceState :=
  { lastExplore := none
    lock := none
    exploreCount := 0
    pcA := CallerPc.start
    pcB := CallerPc.start }

/-! ## ExplorerAgent (`explorer_agent.py`)

`ExplorerAgent.run` drives a tool-calling loop against the LLM provider.
The provider is external: the environment supplies the stream of model
responses, each carrying the tool calls the model issued together with
the registry's result for each call, already decoded from its JSON text
(`none` models a result string `json.loads` rejects).
`_parse_opportunity_result` builds the `Opportunity` from the decoded
result; any raised `KeyError`/`ValueError`/`TypeError` is caught and
yields `None`.  The `uuid4()` and `datetime.now()` drawn by
`Opportunity.__post_init__` are external entropy and are left at their
zero defaults here; text fields are modelled at their intended string
type. -/

/-- A JSON value, as decoded by `json.loads`. -/
inductive JVal where
  | null
  | bool (b : Bool)
  | num (n : Int)
  | str (s : String)
  | arr (xs : List JVal)
  | obj (fields : List (String × JVal))

/-- Dictionary lookup on a decoded JSON object. -/
def jLookup : List (String × JVal) → String → Option JVal
  | [], _ => none
  | (k', v) :: rest, k => if k' == k then some v else jLookup rest k

/-- Python truthiness of `data.get(key)`. -/
def jTruthy : Option JVal → Bool
  | none => false
  | some JVal.null => false
  | some (JVal.bool b) => b
  | some (JVal.num n) => !(n == 0)
  | some (JVal.str s) => !(s == "")
  | some (JVal.arr xs) => !xs.isEmpty
  | some (JVal.obj fs) => !fs.isEmpty

/-- Required string field: `opp_data[key]` (a missing key raises, which
the caller turns into `None`). -/
def jStrReq (fields : List (String × JVal)) (k : String) : Option String :=
  match jLookup fields k with
  | some (JVal.str s) => some s
  | _ => none

/-- `opp_data.get(key, default)` for a string field. -/
def jStrD (fields : List (String × JVal)) (k : String) (d : String) : String :=
  match jLookup fields k with
  | some (JVal.str s) => s
  | _ => d

/-- `opp_data.get("priority", 50)`. -/
def jNumD (fields : List (String × JVal)) (k : String) (d : Int) : Int :=
  match jLookup fields k with
  | some (JVal.num n) => n
  | _ => d

/-- `opp_data.get("tags", [])`: a JSON array of strings. -/
def jTags (fields : List (String × JVal)) : List String :=
  match jLookup fields "tags" with
  | some (JVal.arr xs) =>
      xs.filterMap (fun v => match v with | JVal.str s => some s | _ => none)
  | _ => []

/-- `OpportunitySource(value)`: raises `ValueError` on an unknown value
(surfacing as `None` in the caller). -/
def sourceOfString (s : String) : Option OpportunitySource :=
  if s == "memory_user" then some OpportunitySource.memory_user
  else if s == "memory_ai" then some OpportunitySource.memory_ai
  else if s == "dreamlife" then some OpportunitySource.dreamlife
  else if s == "follow_up" then some OpportunitySource.follow_up
  else none

/-- `ExplorerAgent._parse_opportunity_result`: decode the tool result,
require a truthy `success`, and build the `Opportunity`; every failure
(non-JSON result, non-object payloads, missing `title`/`content`/
`session_id`, unknown `source`) is caught and dropped as `None`. -/
def parse_opportunity_result (r : Option JVal) : Option Opportunity :=
  match r with
  | none => none
  | some (JVal.obj data) =>
      if jTruthy (jLookup data "success") then
        let oppData := jLookup data "opportunity"
        match oppData with
        | some (JVal.obj od) =>
            (match sourceOfString (jStrD od "source" "memory_user"),
                   jStrReq od "title", jStrReq od "content",
                   jStrReq od "session_id" with
             | some src, some title, some content, some sess =>
                 some { source := src
                        title := title
                        content := content
                        context := jStrD od "context" ""
                        priority := jNumD od "priority" 50
                        session_id := sess
                        tags := jTags od
                        related_uri := jStrD od "related_uri" "" }
             | _, _, _, _ => none)
        | none => none
        | some _ => none
      else none
  | some _ => none

/-- One tool call issued by the model, with the registry's result for it
(already decoded from JSON text; `none` = undecodable). -/
structure ToolCallEnv where
  id : String
  name : String
  result : Option JVal

/-- One LLM chat response. -/
structure ModelResponse where
  content : String
  tool_calls : List ToolCallEnv

/-- The opportunities one response contributes: the successfully parsed
payloads of its `create_opportunity` calls, in order. -/
def responseOpps (resp : ModelResponse) : List Opportunity :=
  resp.tool_calls.filterMap (fun tc =>
    if tc.name == "create_opportunity"
    then parse_opportunity_result tc.result
    else none)

/-- The agent loop of `ExplorerAgent.run`: `fuel` iterations remain,
`idx` is the index of the next chat call in the response stream, `acc`
the opportunities collected so far.  Returns the final list and how many
chat calls this invocation makes. -/
def explorerLoop (env : Nat → ModelResponse) :
    Nat → Nat → List Opportunity → List Opportunity × Nat
  | 0, _, acc => (acc, 0)
  | fuel + 1, idx, acc =>
      let resp := env idx
      if resp.tool_calls.isEmpty then (acc, 1)
      else
        let r := explorerLoop env fuel (idx + 1) (acc ++ responseOpps resp)
        (r.1, r.2 + 1)

/-- `ExplorerAgent.run`: the loop starts with no opportunities and runs
at most `config.explorer_max_iterations` iterations.  Returns the
collected opportunities and the number of model calls made. -/
def explorerRun (env : Nat → ModelResponse) (maxIterations : Nat) :
    List Opportunity × Nat :=
  explorerLoop env maxIterations 0 []

/-- The opportunities contributed by `k` consecutive responses of the
stream starting at index `idx`. -/
def collectFrom (env : Nat → ModelResponse) (idx : Nat) : Nat → List Opportunity
  | 0 => []
  | k + 1 => responseOpps (env idx) ++ collectFrom env (idx + 1) k

/-! ## Tracker load/save traces (cache refinement)

`_save` keys the cache by `opportunity.id` while `_load_from_uri` probes
it with the full storage URI, so the cache is never hit on load.  The
variant below differs from `save` exactly by not populating the cache;
a trace of saves and loads observes the same results either way. -/

/-- The variant of `_save` that skips the `self._cache[opportunity.id]`
assignment (the comparison point of the refinement claim). -/
def saveNoCache (st : TrackerState) (opp : Opportunity) : TrackerState :=
  { st with store := storeSet st.store (oppUri opp.id) opp }

/-- One tracker operation of a trace. -/
inductive TrOp where
  | doSave (o : Opportunity)
  | doLoad (uri : String)

/-- Run a trace against the real tracker, collecting each load's
result. -/
def runOps (st : TrackerState) : List TrOp → TrackerState × List (Option Opportunity)
  | [] => (st, [])
  | TrOp.doSave o :: rest => runOps (save st o) rest
  | TrOp.doLoad u :: rest =>
      let l := load_from_uri st u
      let r := runOps l.2 rest
      (r.1, l.1 :: r.2)

/-- Run a trace against the variant whose `_save` never populates the
cache. -/
def runOpsVariant (st : TrackerState) : List TrOp → TrackerState × List (Option Opportunity)
  | [] => (st, [])
  | TrOp.doSave o :: rest => runOpsVariant (saveNoCache st o) rest
  | TrOp.doLoad u :: rest =>
      let l := load_from_uri st u
      let r := runOpsVariant l.2 rest
      (r.1, l.1 :: r.2)

/-- No cache key carries the `.json` suffix (ids are UUID strings; every
URI the tracker loads ends in `.json`). -/
def cacheOk (c : List (String × Opportunity)) : Prop :=
  ∀ p ∈ c, strEndsWith p.1 ".json" = false

/-- No stored record's id carries the `.json` suffix. -/
def storeIdsOk (s : Store) : Prop :=
  ∀ p ∈ s, strEndsWith p.2.id ".json" = false

/-- Well-formedness of one trace operation: a saved id is UUID-like (no
`.json` suffix) and a loaded URI is one of the `.json` file URIs the
tracker enumerates. -/
def opOk : TrOp → Bool
  | TrOp.doSave o => !(strEndsWith o.id ".json")
  | TrOp.doLoad u => strEndsWith u ".json"

/-- A well-formed trace. -/
def opsOk (l : List TrOp) : Prop :=
  ∀ op ∈ l, opOk op = true

/-! ## Concrete scenarios

Small concrete states used to exercise the definitions: the spec's own
follow-up example (an opportunity sent at day 0, a follow-up candidate
with `follow_up_interval_days = 7` presented at day 5 and day 8), a
reminder-exhausted candidate, a pending listing with an equal-priority
tie, and a two-tick dispatcher run whose second send raises. -/

/-- An opportunity sent at minute 0 (day 0), tagged `project`. -/
def exSent : Opportunity :=
  { id := "s1"
    title := "proj progress"
    status := OpportunityStatus.sent
    sent_at := some 0
    tags := ["project"] }

/-- A pending follow-up candidate with the same tag and a 7-day
interval. -/
def exFollowUp : Opportunity :=
  { id := "c1"
    source := OpportunitySource.follow_up
    title := "proj progress"
    status := OpportunityStatus.pending
    tags := ["project"]
    follow_up_interval_days := 7 }

/-- Tracker state holding only the sent record. -/
def exSentState : TrackerState :=
  { store := [(sentUri "s1", exSent)], cache := [] }

/-- A pending candidate with `reminder_count = 3`, overlapping nothing in
`exSentState` (different tag, different title). -/
def exExhausted : Opportunity :=
  { id := "c4"
    title := "weekend plan"
    status := OpportunityStatus.pending
    reminder_count := 3
    tags := ["weekend"] }

/-- A fresh pending candidate (no overlap, `reminder_count = 0`). -/
def exFresh : Opportunity :=
  { id := "c5"
    title := "gym schedule"
    status := OpportunityStatus.pending
    tags := ["gym"] }

/-- Equal-priority pending opportunities: the record created later
(`created_at = 10`) is enumerated by the store before the older one
(`created_at = 5`). -/
def exTieNewer : Opportunity :=
  { id := "a", title := "A", priority := 50, created_at := 10 }

/-- The older equal-priority record. -/
def exTieOlder : Opportunity :=
  { id := "b", title := "B", priority := 50, created_at := 5 }

/-- Pending listing state for the tie scenario. -/
def exTieState : TrackerState :=
  { store := [(oppUri "a", exTieNewer), (oppUri "b", exTieOlder)], cache := [] }

/-- Dispatcher config for the two-tick run: at most 2 messages per day. -/
def cxCfg : SmartProactiveCfg :=
  { enabled := true
    max_per_day := 2
    explore_interval_minutes := 30
    follow_up_enabled := false }

/-- First pending opportunity of the two-tick run. -/
def cxOppA : Opportunity :=
  { id := "a", title := "ta", status := OpportunityStatus.pending, tags := ["x"] }

/-- Second pending opportunity. -/
def cxOppB : Opportunity :=
  { id := "b", title := "tb", status := OpportunityStatus.pending, tags := ["y"] }

/-- Third pending opportunity. -/
def cxOppC : Opportunity :=
  { id := "c", title := "tc", status := OpportunityStatus.pending, tags := ["z"] }

/-- Initial dispatcher state with three pending opportunities and no
messages sent today. -/
def cxPs0 : PulseState :=
  { tracker :=
      { store := [(oppUri "a", cxOppA), (oppUri "b", cxOppB), (oppUri "c", cxOppC)]
        cache := [] }
    today_count := []
    last_explore := none }

/-- First tick at minute 0: the first send succeeds, the second raises. -/
def cxEnv1 : TickEnv :=
  { now := 0
    explored := []
    sendFail := fun k => k == 1
    fresh := fun _ => "f1" }

/-- Second tick one minute later, same calendar day: every send
succeeds. -/
def cxEnv2 : TickEnv :=
  { now := 1
    explored := []
    sendFail := fun _ => false
    fresh := fun _ => "f2" }

/-- A tick whose sends all succeed (for the amended daily-cap bound). -/
def wEnvOk : TickEnv :=
  { now := 0
    explored := []
    sendFail := fun _ => false
    fresh := fun _ => "w1" }

/-- A model response issuing two `create_opportunity` calls: one
malformed (its payload lacks `content` and `session_id`) and one
well-formed. -/
def w6resp0 : ModelResponse :=
  { content := ""
    tool_calls :=
      [ { id := "t1"
          name := "create_opportunity"
          result := some (JVal.obj
            [("success", JVal.bool true),
             ("opportunity", JVal.obj [("title", JVal.str "broken")])]) }
      , { id := "t2"
          name := "create_opportunity"
          result := some (JVal.obj
            [("success", JVal.bool true),
             ("opportunity", JVal.obj
               [("title", JVal.str "gym"),
                ("content", JVal.str "asked about gym"),
                ("session_id", JVal.str "sess-1"),
                ("priority", JVal.num 70),
                ("tags", JVal.arr [JVal.str "gym"])])]) } ] }

/-- A response with no tool calls: the loop's stop signal. -/
def w6stop : ModelResponse := { content := "done", tool_calls := [] }

/-- The response stream: tool calls on the first turn, then stop. -/
def w6env : Nat → ModelResponse :=
  fun i => if i == 0 then w6resp0 else w6stop

/-- The opportunity the well-formed payload parses to. -/
def w6opp : Opportunity :=
  { title := "gym"
    content := "asked about gym"
    priority := 70
    session_id := "sess-1"
    tags := ["gym"] }

/-- A load/save trace: save a record, then load both a present and an
absent URI. -/
def w9ops : List TrOp :=
  [ TrOp.doSave exFresh
  , TrOp.doLoad (oppUri "c5")
  , TrOp.doLoad (oppUri "zzz") ]

/-! ## Store and cache lemmas -/

theorem storeGet_storeSet_self (s : Store) (u : String) (v : Opportunity) :
    storeGet (storeSet s u v) u = some v := by
  induction s with
  | nil => simp [storeSet, storeGet]
  | cons head rest ih =>
      obtain ⟨k, w⟩ := head
      by_cases h : k = u
      · subst h
        simp [storeSet, storeGet]
      · simp [storeSet, storeGet, h, ih]

theorem storeGet_storeSet_ne (s : Store) (u u' : String) (v : Opportunity)
    (h : u' ≠ u) : storeGet (storeSet s u v) u' = storeGet s u' := by
  induction s with
  | nil => simp [storeSet, storeGet, Ne.symm h]
  | cons head rest ih =>
      obtain ⟨k, w⟩ := head
      by_cases hk : k = u
      · subst hk
        simp [storeSet, storeGet, Ne.symm h]
      · simp [storeSet, storeGet, hk, ih]

theorem load_from_uri_store (st : TrackerState) (u : String) :
    (load_from_uri st u).2.store = st.store := by
  unfold load_from_uri
  cases cacheGet st.cache u with
  | some o => rfl
  | none =>
      cases storeGet st.store u with
      | some o => rfl
      | none => rfl

theorem recentSentFold_store (cutoff : Int) (acc : List Opportunity × TrackerState)
    (u : String) : (recentSentFold cutoff acc u).2.store = acc.2.store := by
  simp only [recentSentFold]
  repeat' split
  all_goals exact load_from_uri_store acc.2 u

theorem foldl_recentSentFold_store (cutoff : Int) (uris : List String) :
    ∀ acc : List Opportunity × TrackerState,
      (uris.foldl (recentSentFold cutoff) acc).2.store = acc.2.store := by
  induction uris with
  | nil => intro acc; rfl
  | cons u rest ih =>
      intro acc
      rw [List.foldl_cons, ih, recentSentFold_store]

theorem get_recent_sent_store (now days : Int) (st : TrackerState) :
    (get_recent_sent now days st).2.store = st.store := by
  unfold get_recent_sent
  exact foldl_recentSentFold_store _ _ _

/-! ## C1 and C4: the deduplication decision -/

set_option maxRecDepth 8000 in
/-- C1: at the spec's own example — an opportunity sent at day 0 and a
same-tag follow-up candidate with `follow_up_interval_days = 7` — the
code accepts the candidate at day 5 (when fewer days than the interval
have elapsed) and rejects it at day 8 (when the interval has elapsed).
The claim states exactly the opposite on both days: the follow-up branch
of `should_send` (`if not self._is_follow_up_due(...): continue`)
inverts the documented condition. -/
theorem should_send_follow_up_window_inverted :
    (should_send (5 * minutesPerDay) exFollowUp exSentState).1 = true
    ∧ (should_send (8 * minutesPerDay) exFollowUp exSentState).1 = false
    ∧ daysBetween (5 * minutesPerDay) 0 < exFollowUp.follow_up_interval_days
    ∧ exFollowUp.follow_up_interval_days ≤ daysBetween (8 * minutesPerDay) 0
    ∧ is_duplicate exFollowUp exSent = true
    ∧ exFollowUp.source = OpportunitySource.follow_up := by
  refine ⟨by decide, by decide, by decide, by decide, by decide, by decide⟩

/-- C4: for a candidate matching no recently sent opportunity,
`should_send` rejects a non-pending candidate; rejects a candidate with
`reminder_count ≥ 3`, marking it expired and persisting the expired
record under `.../opportunities/{id}.json`; and accepts otherwise. -/
theorem should_send_no_duplicate_policy (now : Int) (opp : Opportunity)
    (st : TrackerState)
    (hnd : dupScan now opp (get_recent_sent now 30 st).1 = false) :
    (opp.status ≠ OpportunityStatus.pending →
        (should_send now opp st).1 = false)
    ∧ (opp.status = OpportunityStatus.pending → 3 ≤ opp.reminder_count →
        (should_send now opp st).1 = false
        ∧ (should_send now opp st).2.1.status = OpportunityStatus.expired
        ∧ storeGet (should_send now opp st).2.2.store (oppUri opp.id)
            = some { opp with status := OpportunityStatus.expired })
    ∧ (opp.status = OpportunityStatus.pending → opp.reminder_count < 3 →
        (should_send now opp st).1 = true) := by
  refine ⟨fun hs => ?_, fun hs hr => ?_, fun hs hr => ?_⟩
  · simp [should_send, hnd, hs]
  · have hnp : ¬ opp.reminder_count < 3 := by omega
    refine ⟨?_, ?_, ?_⟩
    · simp [should_send, hnd, hs, hr]
    · simp [should_send, hnd, hs, hr]
    · simp only [should_send, hnd, Bool.false_eq_true, if_false, hs,
        ne_eq, not_true_eq_false, ge_iff_le, hr, if_true]
      simp [save, storeGet_storeSet_self]
  · have : ¬ 3 ≤ opp.reminder_count := by omega
    simp [should_send, hnd, hs, this]

set_option maxRecDepth 8000 in
/-- Witness for C4: the reminder-exhausted candidate `exExhausted`
(no overlap with the sent record, `reminder_count = 3`) is rejected and
its persisted record becomes expired; the fresh candidate `exFresh` is
accepted. -/
theorem should_send_no_duplicate_policy_witness :
    (should_send 100 exExhausted exSentState).1 = false
    ∧ storeGet (should_send 100 exExhausted exSentState).2.2.store (oppUri "c4")
        = some { exExhausted with status := OpportunityStatus.expired }
    ∧ (should_send 100 exFresh exSentState).1 = true := by
  have h1 := (should_send_no_duplicate_policy 100 exExhausted exSentState
    (by decide)).2.1 (by decide) (by decide)
  have h2 := (should_send_no_duplicate_policy 100 exFresh exSentState
    (by decide)).2.2 (by decide) (by decide)
  exact ⟨h1.1, h1.2.2, h2⟩

/-! ## C3: the pending listing -/

theorem insertDesc_perm (x : Opportunity) (l : List Opportunity) :
    (insertDesc x l).Perm (x :: l) := by
  induction l with
  | nil => exact List.Perm.refl _
  | cons y ys ih =>
      by_cases h : y.priority ≥ x.priority
      · simp only [insertDesc, if_pos h]
        exact (ih.cons y).trans (List.Perm.swap x y ys)
      · simp only [insertDesc, if_neg h]
        exact List.Perm.refl _

theorem insertDesc_pairwise (x : Opportunity) (l : List Opportunity)
    (h : l.Pairwise (fun a b => b.priority ≤ a.priority)) :
    (insertDesc x l).Pairwise (fun a b => b.priority ≤ a.priority) := by
  induction l with
  | nil => simp [insertDesc]
  | cons y ys ih =>
      rcases List.pairwise_cons.1 h with ⟨hy, hys⟩
      by_cases hxy : y.priority ≥ x.priority
      · simp only [insertDesc, if_pos hxy]
        refine List.pairwise_cons.2 ⟨?_, ih hys⟩
        intro b hb
        rcases List.mem_cons.1 ((insertDesc_perm x ys).mem_iff.1 hb) with rfl | hb'
        · exact hxy
        · exact hy b hb'
      · simp only [insertDesc, if_neg hxy]
        refine List.pairwise_cons.2 ⟨?_, h⟩
        intro b hb
        rcases List.mem_cons.1 hb with rfl | hb'
        · exact le_of_lt (lt_of_not_ge hxy)
        · exact le_trans (hy b hb') (le_of_lt (lt_of_not_ge hxy))

theorem foldl_insertDesc_perm (l : List Opportunity) :
    ∀ acc : List Opportunity,
      (l.foldl (fun a x => insertDesc x a) acc).Perm (acc ++ l) := by
  induction l with
  | nil => intro acc; simp
  | cons x xs ih =>
      intro acc
      simp only [List.foldl_cons]
      refine (ih (insertDesc x acc)).trans ?_
      refine (((insertDesc_perm x acc).append_right xs).trans ?_)
      exact List.perm_middle.symm

theorem sortByPriorityDesc_perm (l : List Opportunity) :
    (sortByPriorityDesc l).Perm l := by
  simpa [sortByPriorityDesc] using foldl_insertDesc_perm l []

theorem foldl_insertDesc_pairwise (l : List Opportunity) :
    ∀ acc : List Opportunity,
      acc.Pairwise (fun a b => b.priority ≤ a.priority) →
      (l.foldl (fun a x => insertDesc x a) acc).Pairwise
        (fun a b => b.priority ≤ a.priority) := by
  induction l with
  | nil => intro acc h; simpa using h
  | cons x xs ih =>
      intro acc h
      simp only [List.foldl_cons]
      exact ih (insertDesc x acc) (insertDesc_pairwise x acc h)

theorem sortByPriorityDesc_pairwise (l : List Opportunity) :
    (sortByPriorityDesc l).Pairwise (fun a b => b.priority ≤ a.priority) := by
  simpa [sortByPriorityDesc] using foldl_insertDesc_pairwise l [] List.Pairwise.nil

theorem pendingFold_pending (acc : List Opportunity × TrackerState) (u : String)
    (h : ∀ o ∈ acc.1, o.status = OpportunityStatus.pending) :
    ∀ o ∈ (pendingFold acc u).1, o.status = OpportunityStatus.pending := by
  simp only [pendingFold]
  split
  case h_1 opp heq =>
      split
      case isTrue hp =>
          intro o ho
          rcases List.mem_append.1 ho with ho' | ho'
          · exact h o ho'
          · rcases List.mem_singleton.1 ho' with rfl
            exact eq_of_beq hp
      case isFalse hp => exact h
  case h_2 => exact h

theorem foldl_pendingFold_pending (uris : List String) :
    ∀ acc : List Opportunity × TrackerState,
      (∀ o ∈ acc.1, o.status = OpportunityStatus.pending) →
      ∀ o ∈ (uris.foldl pendingFold acc).1, o.status = OpportunityStatus.pending := by
  induction uris with
  | nil => intro acc h; exact h
  | cons u rest ih =>
      intro acc h
      simp only [List.foldl_cons]
      exact ih (pendingFold acc u) (pendingFold_pending acc u h)

theorem pendingLoads_pending (st : TrackerState) :
    ∀ o ∈ (pendingLoads st).1, o.status = OpportunityStatus.pending := by
  unfold pendingLoads
  exact foldl_pendingFold_pending _ ([], st) (by intro o ho; cases ho)

/-- C3 (amended): `get_pending_opportunities` returns a permutation of
exactly the `PENDING` records loaded from the `opportunities` partition,
sorted by `priority` descending — with ties left in the store's
enumeration order (the sort key is `priority` alone and Python's sort is
stable), not broken by `created_at`. -/
theorem get_pending_sorted_by_priority_desc (st : TrackerState) :
    (get_pending_opportunities st).1.Pairwise (fun a b => b.priority ≤ a.priority)
    ∧ (get_pending_opportunities st).1.Perm (pendingLoads st).1
    ∧ ∀ o ∈ (get_pending_opportunities st).1,
        o.status = OpportunityStatus.pending := by
  refine ⟨sortByPriorityDesc_pairwise _, sortByPriorityDesc_perm _, ?_⟩
  intro o ho
  exact pendingLoads_pending st o ((sortByPriorityDesc_perm _).subset ho)

set_option maxRecDepth 8000 in
/-- Counterexample to C3 as stated: with two equal-priority pending
records whose store enumeration order is newest-first, the returned
sequence is not sorted with ties broken by `created_at` ascending — the
newer record (`created_at = 10`) precedes the older (`created_at = 5`). -/
theorem get_pending_tie_break_counterexample :
    ¬ ((get_pending_opportunities exTieState).1.Pairwise
        (fun a b => b.priority < a.priority
          ∨ (a.priority = b.priority ∧ a.created_at ≤ b.created_at)))
    ∧ ((get_pending_opportunities exTieState).1.map (fun o => o.created_at))
        = [10, 5]
    ∧ exTieNewer.priority = exTieOlder.priority := by
  refine ⟨?_, by decide, by decide⟩
  intro h
  have h10 : (10 : Int) ≤ 5 ∨ (50 : Int) < 50 := by
    have hp := h
    rw [show (get_pending_opportunities exTieState).1 = [exTieNewer, exTieOlder]
      from by decide] at hp
    rcases List.pairwise_cons.1 hp with ⟨hfst, -⟩
    rcases hfst exTieOlder (by decide) with h' | h'
    · refine Or.inr ?_
      simp only [exTieNewer, exTieOlder] at h'
      exact h'
    · refine Or.inl ?_
      have h'' := h'.2
      simp only [exTieNewer, exTieOlder] at h''
      exact h''
  omega

set_option maxRecDepth 8000 in
/-- Witness for the amended C3 theorem at the tie scenario: the newer
record is in the returned listing, and the theorem certifies it is
pending. -/
theorem get_pending_sorted_by_priority_desc_witness :
    exTieNewer ∈ (get_pending_opportunities exTieState).1
    ∧ exTieNewer.status = OpportunityStatus.pending :=
  ⟨by decide,
   (get_pending_sorted_by_priority_desc exTieState).2.2 exTieNewer (by decide)⟩

/-! ## C7: scheduler loop isolation -/

/-- C7: an exception inside one scheduler loop's tick is logged within
that loop and the loop processes the rest of its trace exactly as it
would have (first conjunct); and each of the three loops' event streams
depends only on its own trace, so a failing tick in one loop never
changes what the sibling loops do (second conjunct). -/
theorem scheduler_loop_error_isolation :
    (∀ pre post : List TickOutcome, TickOutcome.cancel ∉ pre →
        runLoopEvents (pre ++ TickOutcome.err :: post)
          = runLoopEvents pre ++ LoopEvent.errorLogged :: runLoopEvents post)
    ∧ (∀ tH tP tS tP' : List TickOutcome,
        (schedulerRun tH tP tS).1 = (schedulerRun tH tP' tS).1
        ∧ (schedulerRun tH tP tS).2.2 = (schedulerRun tH tP' tS).2.2) := by
  constructor
  · intro pre post hpre
    induction pre with
    | nil => rfl
    | cons t rest ih =>
        have hrest : TickOutcome.cancel ∉ rest := fun hmem =>
          hpre (List.mem_cons_of_mem t hmem)
        cases t with
        | ok => simp [runLoopEvents, ih hrest]
        | err => simp [runLoopEvents, ih hrest]
        | cancel => exact absurd (List.mem_cons_self _ _) hpre
  · intro tH tP tS tP'
    exact ⟨rfl, rfl⟩

/-- Witness for C7: a loop that ticks, hits an exception, and ticks
again logs the error between the two ticks. -/
theorem scheduler_loop_error_isolation_witness :
    runLoopEvents ([TickOutcome.ok] ++ TickOutcome.err :: [TickOutcome.ok])
      = runLoopEvents [TickOutcome.ok]
        ++ LoopEvent.errorLogged :: runLoopEvents [TickOutcome.ok] :=
  scheduler_loop_error_isolation.1 [TickOutcome.ok] [TickOutcome.ok] (by decide)

/-! ## C8: the exploration race -/

/-- Inductive invariant of the exploration race at instant `now`:
`_explore_and_queue` has run at most once, and exactly once when
`_last_explore_time` has been stamped; the lock is held precisely by a
caller inside `_explore_and_queue`; and a caller explores only while the
stamp is still unset. -/
def raceInv (now : Int) (s : RaceState) : Prop :=
  s.exploreCount ≤ 1
  ∧ (s.exploreCount = 1 ↔ s.lastExplore = some now)
  ∧ (s.lastExplore = none ∨ s.lastExplore = some now)
  ∧ (s.pcA = CallerPc.exploring ↔ s.lock = some false)
  ∧ (s.pcB = CallerPc.exploring ↔ s.lock = some true)
  ∧ (s.pcA = CallerPc.exploring → s.lastExplore = none)
  ∧ (s.pcB = CallerPc.exploring → s.lastExplore = none)

theorem should_explore_just_stamped (cfg : SmartProactiveCfg) (now : Int)
    (hpos : 0 < cfg.explore_interval_minutes) :
    should_explore cfg now (some now) = false := by
  simp only [should_explore, ge_iff_le, decide_eq_false_iff_not, not_le]
  omega

theorem raceStep_inv (cfg : SmartProactiveCfg) (now : Int)
    (hpos : 0 < cfg.explore_interval_minutes) (c : Bool) (s : RaceState)
    (h : raceInv now s) : raceInv now (raceStep cfg now c s) := by
  obtain ⟨h1, h2, h3, h4, h5, h6, h7⟩ := h
  have hstamp := should_explore_just_stamped cfg now hpos
  have hnotdue : s.lastExplore = some now →
      should_explore cfg now s.lastExplore = false := by
    intro hx
    rw [hx]
    exact hstamp
  cases c with
  | false =>
      cases hpc : s.pcA with
      | start =>
          by_cases hd : should_explore cfg now s.lastExplore = true
          · have hstep : raceStep cfg now false s
                = { s with pcA := CallerPc.waitLock } := by
              simp [raceStep, RaceState.pc, RaceState.setPc, hpc, hd]
            rw [hstep]
            refine ⟨h1, h2, h3, ?_, h5, ?_, h7⟩
            · constructor
              · intro hx
                simp at hx
              · intro hlk
                have := h4.2 hlk
                rw [hpc] at this
                simp at this
            · intro hx
              simp at hx
          · have hstep : raceStep cfg now false s
                = { s with pcA := CallerPc.done } := by
              simp [raceStep, RaceState.pc, RaceState.setPc, hpc, hd]
            rw [hstep]
            refine ⟨h1, h2, h3, ?_, h5, ?_, h7⟩
            · constructor
              · intro hx
                simp at hx
              · intro hlk
                have := h4.2 hlk
                rw [hpc] at this
                simp at this
            · intro hx
              simp at hx
      | waitLock =>
          rcases hl : s.lock with - | holder
          · by_cases hd : should_explore cfg now s.lastExplore = true
            · have hstep : raceStep cfg now false s
                  = { s with pcA := CallerPc.exploring, lock := some false } := by
                simp [raceStep, RaceState.pc, RaceState.setPc, hpc, hl, hd]
              have hle : s.lastExplore = none := by
                rcases h3 with h3 | h3
                · exact h3
                · rw [hnotdue h3] at hd
                  cases hd
              rw [hstep]
              refine ⟨h1, h2, h3, ⟨fun _ => rfl, fun _ => rfl⟩, ?_, ?_, ?_⟩
              · constructor
                · intro hb
                  simp only at hb
                  have := h5.1 hb
                  rw [hl] at this
                  cases this
                · intro hlk
                  simp at hlk
              · intro _
                exact hle
              · intro hb
                simp only at hb
                have := h5.1 hb
                rw [hl] at this
                cases this
            · have hstep : raceStep cfg now false s
                  = { s with pcA := CallerPc.done } := by
                simp [raceStep, RaceState.pc, RaceState.setPc, hpc, hl, hd]
              rw [hstep]
              refine ⟨h1, h2, h3, ?_, h5, ?_, h7⟩
              · constructor
                · intro hx
                  simp at hx
                · intro hlk
                  have := h4.2 hlk
                  rw [hpc] at this
                  simp at this
              · intro hx
                simp at hx
          · have hstep : raceStep cfg now false s = s := by
              simp [raceStep, RaceState.pc, hpc, hl]
            rw [hstep]
            exact ⟨h1, h2, h3, h4, h5, h6, h7⟩
      | exploring =>
          have hstep : raceStep cfg now false s
              = { s with
                    pcA := CallerPc.done
                    lastExplore := some now
                    lock := none
                    exploreCount := s.exploreCount + 1 } := by
            simp [raceStep, RaceState.pc, RaceState.setPc, hpc]
          have hle : s.lastExplore = none := h6 hpc
          have hcount : s.exploreCount = 0 := by
            rcases Nat.lt_or_ge s.exploreCount 1 with hc | hc
            · omega
            · have h1' : s.exploreCount = 1 := by omega
              have := h2.1 h1'
              rw [hle] at this
              cases this
          have hnb : s.pcB ≠ CallerPc.exploring := by
            intro hb
            have := h5.1 hb
            rw [h4.1 hpc] at this
            cases this
          rw [hstep]
          refine ⟨by change s.exploreCount + 1 ≤ 1; omega, by simp [hcount], Or.inr rfl, ?_, ?_, ?_, ?_⟩
          · constructor
            · intro hx
              simp at hx
            · intro hlk
              simp at hlk
          · constructor
            · intro hb
              simp only at hb
              exact absurd hb hnb
            · intro hlk
              simp at hlk
          · intro hx
            simp at hx
          · intro hb
            simp only at hb
            exact absurd hb hnb
      | done =>
          have hstep : raceStep cfg now false s = s := by
            simp [raceStep, RaceState.pc, hpc]
          rw [hstep]
          exact ⟨h1, h2, h3, h4, h5, h6, h7⟩
  | true =>
      cases hpc : s.pcB with
      | start =>
          by_cases hd : should_explore cfg now s.lastExplore = true
          · have hstep : raceStep cfg now true s
                = { s with pcB := CallerPc.waitLock } := by
              simp [raceStep, RaceState.pc, RaceState.setPc, hpc, hd]
            rw [hstep]
            refine ⟨h1, h2, h3, h4, ?_, h6, ?_⟩
            · constructor
              · intro hx
                simp at hx
              · intro hlk
                have := h5.2 hlk
                rw [hpc] at this
                simp at this
            · intro hx
              simp at hx
          · have hstep : raceStep cfg now true s
                = { s with pcB := CallerPc.done } := by
              simp [raceStep, RaceState.pc, RaceState.setPc, hpc, hd]
            rw [hstep]
            refine ⟨h1, h2, h3, h4, ?_, h6, ?_⟩
            · constructor
              · intro hx
                simp at hx
              · intro hlk
                have := h5.2 hlk
                rw [hpc] at this
                simp at this
            · intro hx
              simp at hx
      | waitLock =>
          rcases hl : s.lock with - | holder
          · by_cases hd : should_explore cfg now s.lastExplore = true
            · have hstep : raceStep cfg now true s
                  = { s with pcB := CallerPc.exploring, lock := some true } := by
                simp [raceStep, RaceState.pc, RaceState.setPc, hpc, hl, hd]
              have hle : s.lastExplore = none := by
                rcases h3 with h3 | h3
                · exact h3
                · rw [hnotdue h3] at hd
                  cases hd
              rw [hstep]
              refine ⟨h1, h2, h3, ?_, ⟨fun _ => rfl, fun _ => rfl⟩, ?_, ?_⟩
              · constructor
                · intro hb
                  simp only at hb
                  have := h4.1 hb
                  rw [hl] at this
                  cases this
                · intro hlk
                  simp at hlk
              · intro hb
                simp only at hb
                have := h4.1 hb
                rw [hl] at this
                cases this
              · intro _
                exact hle
            · have hstep : raceStep cfg now true s
                  = { s with pcB := CallerPc.done } := by
                simp [raceStep, RaceState.pc, RaceState.setPc, hpc, hl, hd]
              rw [hstep]
              refine ⟨h1, h2, h3, h4, ?_, h6, ?_⟩
              · constructor
                · intro hx
                  simp at hx
                · intro hlk
                  have := h5.2 hlk
                  rw [hpc] at this
                  simp at this
              · intro hx
                simp at hx
          · have hstep : raceStep cfg now true s = s := by
              simp [raceStep, RaceState.pc, hpc, hl]
            rw [hstep]
            exact ⟨h1, h2, h3, h4, h5, h6, h7⟩
      | exploring =>
          have hstep : raceStep cfg now true s
              = { s with
                    pcB := CallerPc.done
                    lastExplore := some now
                    lock := none
                    exploreCount := s.exploreCount + 1 } := by
            simp [raceStep, RaceState.pc, RaceState.setPc, hpc]
          have hle : s.lastExplore = none := h7 hpc
          have hcount : s.exploreCount = 0 := by
            rcases Nat.lt_or_ge s.exploreCount 1 with hc | hc
            · omega
            · have h1' : s.exploreCount = 1 := by omega
              have := h2.1 h1'
              rw [hle] at this
              cases this
          have hna : s.pcA ≠ CallerPc.exploring := by
            intro hb
            have := h4.1 hb
            rw [h5.1 hpc] at this
            cases this
          rw [hstep]
          refine ⟨by change s.exploreCount + 1 ≤ 1; omega, by simp [hcount], Or.inr rfl, ?_, ?_, ?_, ?_⟩
          · constructor
            · intro hb
              simp only at hb
              exact absurd hb hna
            · intro hlk
              simp at hlk
          · constructor
            · intro hx
              simp at hx
            · intro hlk
              simp at hlk
          · intro hb
            simp only at hb
            exact absurd hb hna
          · intro hx
            simp at hx
      | done =>
          have hstep : raceStep cfg now true s = s := by
            simp [raceStep, RaceState.pc, hpc]
          rw [hstep]
          exact ⟨h1, h2, h3, h4, h5, h6, h7⟩

theorem raceRun_inv (cfg : SmartProactiveCfg) (now : Int)
    (hpos : 0 < cfg.explore_interval_minutes) (sched : List Bool) :
    ∀ s : RaceState, raceInv now s → raceInv now (raceRun cfg now sched s) := by
  induction sched with
  | nil => intro s h; exact h
  | cons c rest ih =>
      intro s h
      simp only [raceRun, List.foldl_cons]
      exact ih _ (raceStep_inv cfg now hpos c s h)

/-- C8: under any interleaving of two concurrent `pulse_check` callers
starting while exploration is due, `_explore_and_queue` runs at most
once — the lock serialises the callers and the repeated
`_should_explore` check after acquiring it turns the second caller away
(`explore_interval_minutes` being positive, a freshly stamped
`_last_explore_time` is never due again at the same instant). -/
theorem explore_single_flight (cfg : SmartProactiveCfg) (now : Int)
    (hpos : 0 < cfg.explore_interval_minutes) (sched : List Bool) :
    (raceRun cfg now sched raceInit).exploreCount ≤ 1 := by
  have hinit : raceInv now raceInit := by
    refine ⟨by simp [raceInit], by simp [raceInit], Or.inl rfl, ?_, ?_, ?_, ?_⟩
    all_goals simp [raceInit]
  exact (raceRun_inv cfg now hpos sched raceInit hinit).1

/-- Witness for C8: a concrete interleaving — both callers pass the
first check, the first explores while the second waits — yields exactly
one exploration, and the theorem bounds it by one. -/
theorem explore_single_flight_witness :
    (raceRun cxCfg 0 [false, true, false, false, true, true]
        raceInit).exploreCount ≤ 1
    ∧ (raceRun cxCfg 0 [false, true, false, false, true, true]
        raceInit).exploreCount = 1 :=
  ⟨explore_single_flight cxCfg 0 (by decide) [false, true, false, false, true, true],
   by decide⟩

/-! ## C6: the Explorer loop -/

theorem responseOpps_of_no_tool_calls (resp : ModelResponse)
    (h : resp.tool_calls = []) : responseOpps resp = [] := by
  simp [responseOpps, h]

theorem explorerLoop_spec (env : Nat → ModelResponse) :
    ∀ (fuel idx : Nat) (acc : List Opportunity),
      (explorerLoop env fuel idx acc).2 ≤ fuel
      ∧ (0 < fuel → 0 < (explorerLoop env fuel idx acc).2)
      ∧ ((explorerLoop env fuel idx acc).2 < fuel →
          (env (idx + ((explorerLoop env fuel idx acc).2 - 1))).tool_calls = [])
      ∧ (∀ j, j + 1 < (explorerLoop env fuel idx acc).2 →
          (env (idx + j)).tool_calls ≠ [])
      ∧ (explorerLoop env fuel idx acc).1
          = acc ++ collectFrom env idx (explorerLoop env fuel idx acc).2 := by
  intro fuel
  induction fuel with
  | zero =>
      intro idx acc
      refine ⟨Nat.le_refl 0, by omega, by omega, ?_, by simp [explorerLoop, collectFrom]⟩
      intro j hj
      simp [explorerLoop] at hj
  | succ f ih =>
      intro idx acc
      by_cases he : (env idx).tool_calls.isEmpty
      · have hnil : (env idx).tool_calls = [] := List.isEmpty_iff.1 he
        have hloop : explorerLoop env (f + 1) idx acc = (acc, 1) := by
          simp [explorerLoop, he]
        rw [hloop]
        refine ⟨by omega, by omega, ?_, by omega, ?_⟩
        · intro _
          simpa using hnil
        · simp [collectFrom, responseOpps_of_no_tool_calls _ hnil]
      · have hne : (env idx).tool_calls ≠ [] := by
          intro hx
          exact he (by simp [hx])
        have hloop : explorerLoop env (f + 1) idx acc
            = ((explorerLoop env f (idx + 1) (acc ++ responseOpps (env idx))).1,
               (explorerLoop env f (idx + 1) (acc ++ responseOpps (env idx))).2 + 1) := by
          simp [explorerLoop, he]
        obtain ⟨ih1, ih2, ih3, ih4, ih5⟩ := ih (idx + 1) (acc ++ responseOpps (env idx))
        rw [hloop]
        refine ⟨by omega, by omega, ?_, ?_, ?_⟩
        · intro hlt
          have hfpos : 0 < f := by omega
          have hrlt : (explorerLoop env f (idx + 1) (acc ++ responseOpps (env idx))).2 < f := by
            omega
          have hrpos := ih2 hfpos
          have := ih3 hrlt
          have harith : idx + 1
              + ((explorerLoop env f (idx + 1) (acc ++ responseOpps (env idx))).2 - 1)
              = idx + ((explorerLoop env f (idx + 1) (acc ++ responseOpps (env idx))).2
                  + 1 - 1) := by
            omega
          rw [harith] at this
          simpa using this
        · intro j hj
          cases j with
          | zero =>
              simpa using hne
          | succ j' =>
              have hj' : j' + 1
                  < (explorerLoop env f (idx + 1) (acc ++ responseOpps (env idx))).2 := by
                omega
              have := ih4 j' hj'
              have harith : idx + 1 + j' = idx + (j' + 1) := by omega
              rw [harith] at this
              simpa using this
        · simp only
          rw [ih5]
          simp [collectFrom]

/-- C6: `ExplorerAgent.run` makes at most `explorer_max_iterations` model
calls; it stops at the first response carrying no tool calls (every
earlier response carried some), or at the iteration cap, whichever comes
first; and it returns exactly the successfully parsed payloads of the
`create_opportunity` calls of the consumed responses, in order — an
unparseable payload contributes nothing (it is dropped with a warning)
without discarding the rest. -/
theorem explorer_run_bounded (env : Nat → ModelResponse) (maxIterations : Nat) :
    (explorerRun env maxIterations).2 ≤ maxIterations
    ∧ (0 < maxIterations → 0 < (explorerRun env maxIterations).2)
    ∧ ((explorerRun env maxIterations).2 < maxIterations →
        (env ((explorerRun env maxIterations).2 - 1)).tool_calls = [])
    ∧ (∀ j, j + 1 < (explorerRun env maxIterations).2 →
        (env j).tool_calls ≠ [])
    ∧ (explorerRun env maxIterations).1
        = collectFrom env 0 (explorerRun env maxIterations).2 := by
  obtain ⟨h1, h2, h3, h4, h5⟩ := explorerLoop_spec env maxIterations 0 []
  refine ⟨h1, h2, ?_, ?_, ?_⟩
  · intro hlt
    simpa using h3 hlt
  · intro j hj
    simpa using h4 j hj
  · simpa using h5

/-- Witness for C6 at the concrete stream `w6env` (one response carrying
a malformed and a well-formed `create_opportunity` call, then a stop
response): the theorem bounds the model calls, certifies the stop
response is the no-tool-calls one, and gives the collected list — which
is exactly the one well-formed opportunity, the malformed payload having
been dropped. -/
theorem explorer_run_bounded_witness :
    (explorerRun w6env 10).2 ≤ 10
    ∧ (w6env ((explorerRun w6env 10).2 - 1)).tool_calls = []
    ∧ (explorerRun w6env 10).1 = collectFrom w6env 0 (explorerRun w6env 10).2
    ∧ (explorerRun w6env 10).1 = [w6opp]
    ∧ parse_opportunity_result (w6resp0.tool_calls.get
        ⟨0, by decide⟩).result = none := by
  refine ⟨(explorer_run_bounded w6env 10).1,
    (explorer_run_bounded w6env 10).2.2.1 (by decide),
    (explorer_run_bounded w6env 10).2.2.2.2, by decide, by decide⟩

/-! ## C9: the load cache is never hit -/

theorem cacheGet_none_of_cacheOk (c : List (String × Opportunity)) (u : String)
    (hc : cacheOk c) (hu : strEndsWith u ".json" = true) :
    cacheGet c u = none := by
  induction c with
  | nil => rfl
  | cons head rest ih =>
      obtain ⟨k, w⟩ := head
      have hk : strEndsWith k ".json" = false := hc (k, w) (List.mem_cons_self _ _)
      have hne : (k == u) = false := by
        apply beq_eq_false_iff_ne.2
        intro hkk
        rw [hkk, hu] at hk
        cases hk
      simp only [cacheGet, hne, Bool.false_eq_true, if_false]
      exact ih (fun p hp => hc p (List.mem_cons_of_mem _ hp))

theorem cacheOk_cacheSet (c : List (String × Opportunity)) (k : String)
    (v : Opportunity) (hc : cacheOk c)
    (hk : strEndsWith k ".json" = false) : cacheOk (cacheSet c k v) := by
  induction c with
  | nil =>
      intro p hp
      rcases List.mem_singleton.1 hp with rfl
      exact hk
  | cons head rest ih =>
      obtain ⟨k', w⟩ := head
      have hk' := hc (k', w) (List.mem_cons_self _ _)
      have hrest : cacheOk rest := fun p hp => hc p (List.mem_cons_of_mem _ hp)
      simp only [cacheSet]
      split
      · intro p hp
        rcases List.mem_cons.1 hp with rfl | hp'
        · exact hk'
        · exact hrest p hp'
      · intro p hp
        rcases List.mem_cons.1 hp with rfl | hp'
        · exact hk'
        · exact ih hrest p hp'

theorem storeIdsOk_storeSet (s : Store) (u : String) (v : Opportunity)
    (hs : storeIdsOk s) (hv : strEndsWith v.id ".json" = false) :
    storeIdsOk (storeSet s u v) := by
  induction s with
  | nil =>
      intro p hp
      rcases List.mem_singleton.1 hp with rfl
      exact hv
  | cons head rest ih =>
      obtain ⟨k, w⟩ := head
      have hw := hs (k, w) (List.mem_cons_self _ _)
      have hrest : storeIdsOk rest := fun p hp => hs p (List.mem_cons_of_mem _ hp)
      simp only [storeSet]
      split
      · intro p hp
        rcases List.mem_cons.1 hp with rfl | hp'
        · exact hv
        · exact hrest p hp'
      · intro p hp
        rcases List.mem_cons.1 hp with rfl | hp'
        · exact hw
        · exact ih hrest p hp'

theorem storeGet_mem (s : Store) (u : String) (v : Opportunity)
    (h : storeGet s u = some v) : (u, v) ∈ s := by
  induction s with
  | nil => cases h
  | cons head rest ih =>
      obtain ⟨k, w⟩ := head
      by_cases hk : k = u
      · subst hk
        simp only [storeGet, beq_self_eq_true, if_true, Option.some.injEq] at h
        subst h
        exact List.mem_cons_self _ _
      · have hne : (k == u) = false := beq_eq_false_iff_ne.2 hk
        simp only [storeGet, hne, Bool.false_eq_true, if_false] at h
        exact List.mem_cons_of_mem _ (ih h)

theorem storeIdsOk_get (s : Store) (u : String) (v : Opportunity)
    (hs : storeIdsOk s) (h : storeGet s u = some v) :
    strEndsWith v.id ".json" = false :=
  hs (u, v) (storeGet_mem s u v h)

theorem load_from_uri_of_cacheOk (st : TrackerState) (u : String)
    (hc : cacheOk st.cache) (hu : strEndsWith u ".json" = true) :
    (load_from_uri st u).1 = storeGet st.store u := by
  unfold load_from_uri
  rw [cacheGet_none_of_cacheOk st.cache u hc hu]
  cases storeGet st.store u <;> rfl

theorem load_from_uri_cacheOk (st : TrackerState) (u : String)
    (hc : cacheOk st.cache) (hs : storeIdsOk st.store) :
    cacheOk (load_from_uri st u).2.cache := by
  unfold load_from_uri
  cases hcg : cacheGet st.cache u with
  | some o => exact hc
  | none =>
      cases hsg : storeGet st.store u with
      | some o => exact cacheOk_cacheSet _ _ _ hc (storeIdsOk_get _ _ _ hs hsg)
      | none => exact hc

/-- C9: over any well-formed trace of saves and loads, the tracker is
observationally equal to the variant whose `_save` never populates the
cache — every load's result and the final store agree.  The cache is
keyed by opportunity id (no `.json` suffix) while `_load_from_uri`
probes it with the full `... .json` URI, so the cache is never consulted
successfully and every load fetches from the store. -/
theorem runOps_cache_refinement :
    ∀ (ops : List TrOp) (st1 st2 : TrackerState),
      st1.store = st2.store → cacheOk st1.cache → cacheOk st2.cache →
      storeIdsOk st1.store → opsOk ops →
      (runOps st1 ops).2 = (runOpsVariant st2 ops).2
      ∧ (runOps st1 ops).1.store = (runOpsVariant st2 ops).1.store := by
  intro ops
  induction ops with
  | nil =>
      intro st1 st2 hstore hc1 hc2 hids hops
      exact ⟨rfl, hstore⟩
  | cons op rest ih =>
      intro st1 st2 hstore hc1 hc2 hids hops
      have hop := hops op (List.mem_cons_self _ _)
      have hrest : opsOk rest := fun p hp => hops p (List.mem_cons_of_mem _ hp)
      cases op with
      | doSave o =>
          have hid : strEndsWith o.id ".json" = false := by
            simpa [opOk] using hop
          simp only [runOps, runOpsVariant]
          exact ih (save st1 o) (saveNoCache st2 o)
            (by simp [save, saveNoCache, hstore])
            (cacheOk_cacheSet _ _ _ hc1 hid) hc2
            (by simpa [save] using storeIdsOk_storeSet st1.store _ o hids hid)
            hrest
      | doLoad u =>
          have hu : strEndsWith u ".json" = true := by
            simpa [opOk] using hop
          have hres1 := load_from_uri_of_cacheOk st1 u hc1 hu
          have hres2 := load_from_uri_of_cacheOk st2 u hc2 hu
          have hsame : (load_from_uri st1 u).1 = (load_from_uri st2 u).1 := by
            rw [hres1, hres2, hstore]
          have hih := ih (load_from_uri st1 u).2 (load_from_uri st2 u).2
            (by rw [load_from_uri_store, load_from_uri_store, hstore])
            (load_from_uri_cacheOk st1 u hc1 hids)
            (load_from_uri_cacheOk st2 u hc2 (hstore ▸ hids))
            (by rw [load_from_uri_store]; exact hids)
            hrest
          simp only [runOps, runOpsVariant]
          exact ⟨by rw [hsame, hih.1], hih.2⟩

set_option maxRecDepth 8000 in
/-- Witness for C9: on the concrete trace `w9ops` (a save, a load of the
saved record's URI, a load of an absent URI) from the empty state, both
implementations observe the same results. -/
theorem runOps_cache_refinement_witness :
    (runOps { store := [], cache := [] } w9ops).2
      = (runOpsVariant { store := [], cache := [] } w9ops).2
    ∧ (runOps { store := [], cache := [] } w9ops).2
      = [some exFresh, none] := by
  refine ⟨(runOps_cache_refinement w9ops
    { store := [], cache := [] } { store := [], cache := [] }
    rfl (fun p hp => absurd hp (List.not_mem_nil p))
    (fun p hp => absurd hp (List.not_mem_nil p))
    (fun p hp => absurd hp (List.not_mem_nil p))
    (by intro op hop; fin_cases hop <;> decide)).1, by decide⟩

/-! ## C10: `mark_sent` writes only the sent partition -/

theorem oppUri_ne_sentUri (id : String) : oppUri id ≠ sentUri id := by
  intro h
  have hd := congrArg String.data h
  have ho : (oppUri id).data
      = "viking://user/proactive".data
        ++ ("/opportunities/".data ++ (id.data ++ ".json".data)) := by
    simp [oppUri, BASE_URI, String.data_append]
  have hs : (sentUri id).data
      = "viking://user/proactive".data
        ++ ("/sent/".data ++ (id.data ++ ".json".data)) := by
    simp [sentUri, BASE_URI, String.data_append]
  rw [ho, hs] at hd
  have hx := List.append_cancel_left hd
  have h1 : ("/opportunities/".data ++ (id.data ++ ".json".data))[1]? = some 'o' := by
    rw [List.getElem?_append, if_pos (by decide)]
    decide
  have h2 : ("/sent/".data ++ (id.data ++ ".json".data))[1]? = some 's' := by
    rw [List.getElem?_append, if_pos (by decide)]
    decide
  rw [hx, h2] at h1
  cases h1

theorem strStartsWith_append (p r : String) : strStartsWith (p ++ r) p = true := by
  simp only [strStartsWith, String.data_append]
  rw [List.isPrefixOf_iff_prefix]
  exact List.prefix_append _ _

theorem strEndsWith_append (r p : String) : strEndsWith (r ++ p) p = true := by
  simp only [strEndsWith, String.data_append]
  rw [List.isSuffixOf_iff_suffix]
  exact List.suffix_append _ _

theorem oppUri_decomp (id : String) :
    oppUri id = ((BASE_URI ++ "/opportunities") ++ "/") ++ (id ++ ".json") := by
  show ((BASE_URI ++ "/opportunities/") ++ id) ++ ".json" = _
  rw [show (BASE_URI ++ "/opportunities") ++ "/" = BASE_URI ++ "/opportunities/"
    from by decide]
  exact String.append_assoc _ _ _

theorem strStartsWith_oppUri (id : String) :
    strStartsWith (oppUri id) ((BASE_URI ++ "/opportunities") ++ "/") = true := by
  rw [oppUri_decomp]
  exact strStartsWith_append _ _

theorem strEndsWith_oppUri (id : String) :
    strEndsWith (oppUri id) ".json" = true :=
  strEndsWith_append ((BASE_URI ++ "/opportunities/") ++ id) ".json"

theorem mem_keys_storeSet (s : Store) (u u' : String) (v : Opportunity)
    (h : u ∈ s.map Prod.fst) : u ∈ (storeSet s u' v).map Prod.fst := by
  induction s with
  | nil => cases h
  | cons head rest ih =>
      obtain ⟨k, w⟩ := head
      simp only [storeSet]
      split
      · simp only [List.map_cons, List.mem_cons] at h ⊢
        exact h
      · simp only [List.map_cons, List.mem_cons] at h ⊢
        rcases h with h | h
        · exact Or.inl h
        · exact Or.inr (ih h)

theorem mem_storeList (s : Store) (pre u : String)
    (hk : u ∈ s.map Prod.fst) (hpre : strStartsWith u (pre ++ "/") = true) :
    u ∈ storeList s pre := by
  simp only [storeList]
  exact List.mem_filter.2 ⟨hk, hpre⟩

theorem pendingFold_store (acc : List Opportunity × TrackerState) (u : String) :
    (pendingFold acc u).2.store = acc.2.store := by
  simp only [pendingFold]
  repeat' split
  all_goals exact load_from_uri_store acc.2 u

theorem pendingFold_cacheOk (acc : List Opportunity × TrackerState) (u : String)
    (hc : cacheOk acc.2.cache) (hs : storeIdsOk acc.2.store) :
    cacheOk (pendingFold acc u).2.cache := by
  simp only [pendingFold]
  repeat' split
  all_goals exact load_from_uri_cacheOk acc.2 u hc hs

theorem foldl_pendingFold_mono (uris : List String) :
    ∀ (acc : List Opportunity × TrackerState) (x : Opportunity),
      x ∈ acc.1 → x ∈ (uris.foldl pendingFold acc).1 := by
  induction uris with
  | nil => intro acc x hx; exact hx
  | cons u rest ih =>
      intro acc x hx
      simp only [List.foldl_cons]
      apply ih
      simp only [pendingFold]
      repeat' split
      all_goals first
        | exact hx
        | exact List.mem_append.2 (Or.inl hx)

theorem foldl_pendingFold_mem (uris : List String) :
    ∀ (acc : List Opportunity × TrackerState) (u : String) (rec : Opportunity),
      cacheOk acc.2.cache → storeIdsOk acc.2.store →
      u ∈ uris → strEndsWith u ".json" = true →
      storeGet acc.2.store u = some rec →
      rec.status = OpportunityStatus.pending →
      rec ∈ (uris.foldl pendingFold acc).1 := by
  induction uris with
  | nil =>
      intro acc u rec _ _ hmem _ _ _
      cases hmem
  | cons u' rest ih =>
      intro acc u rec hc hs hmem hjson hget hpend
      simp only [List.foldl_cons]
      rcases List.mem_cons.1 hmem with rfl | hmem'
      · have hload : (load_from_uri acc.2 u).1 = some rec := by
          rw [load_from_uri_of_cacheOk acc.2 u hc hjson]
          exact hget
        have happend : rec ∈ (pendingFold acc u).1 := by
          simp [pendingFold, hload, hpend]
        exact foldl_pendingFold_mono rest (pendingFold acc u) rec happend
      · exact ih (pendingFold acc u') u rec
          (pendingFold_cacheOk acc u' hc hs)
          (by rw [pendingFold_store]; exact hs)
          hmem' hjson
          (by rw [pendingFold_store]; exact hget)
          hpend

theorem pendingLoads_mem (st : TrackerState) (u : String) (rec : Opportunity)
    (hc : cacheOk st.cache) (hs : storeIdsOk st.store)
    (hk : u ∈ st.store.map Prod.fst)
    (hpre : strStartsWith u ((BASE_URI ++ "/opportunities") ++ "/") = true)
    (hjson : strEndsWith u ".json" = true)
    (hget : storeGet st.store u = some rec)
    (hpend : rec.status = OpportunityStatus.pending) :
    rec ∈ (pendingLoads st).1 := by
  simp only [pendingLoads]
  apply foldl_pendingFold_mem _ ([], st) u rec hc hs _ hjson hget hpend
  exact List.mem_filter.2 ⟨mem_storeList st.store _ u hk hpre, hjson⟩

/-- C10: `mark_sent` persists the updated record (status `sent`,
`sent_at` stamped, `reminder_count` bumped) at `.../sent/{id}.json` and
nowhere else: every other URI — in particular the record at
`.../opportunities/{id}.json` — is unchanged, so re-reading the pending
partition still yields the `pending` record and
`get_pending_opportunities` returns it again on a later tick. -/
theorem mark_sent_frame (now : Int) (o rec : Opportunity) (st : TrackerState)
    (hget : storeGet st.store (oppUri o.id) = some rec)
    (hpend : rec.status = OpportunityStatus.pending)
    (hc : cacheOk st.cache)
    (hids : storeIdsOk st.store)
    (hid : strEndsWith o.id ".json" = false) :
    (mark_sent now o st).1
      = { o with
            status := OpportunityStatus.sent
            sent_at := some now
            reminder_count := o.reminder_count + 1 }
    ∧ storeGet (mark_sent now o st).2.store (sentUri o.id)
      = some (mark_sent now o st).1
    ∧ (∀ u, u ≠ sentUri o.id →
        storeGet (mark_sent now o st).2.store u = storeGet st.store u)
    ∧ storeGet (mark_sent now o st).2.store (oppUri o.id) = some rec
    ∧ rec ∈ (get_pending_opportunities (mark_sent now o st).2).1 := by
  have hstore : (mark_sent now o st).2.store
      = storeSet st.store (sentUri o.id) (mark_sent now o st).1 := rfl
  have hcache : (mark_sent now o st).2.cache = st.cache := rfl
  have hget' : storeGet (mark_sent now o st).2.store (oppUri o.id) = some rec := by
    rw [hstore, storeGet_storeSet_ne _ _ _ _ (oppUri_ne_sentUri o.id)]
    exact hget
  refine ⟨rfl, ?_, ?_, hget', ?_⟩
  · rw [hstore]
    exact storeGet_storeSet_self _ _ _
  · intro u hu
    rw [hstore]
    exact storeGet_storeSet_ne _ _ _ _ hu
  · have hids' : storeIdsOk (mark_sent now o st).2.store := by
      rw [hstore]
      exact storeIdsOk_storeSet _ _ _ hids hid
    have hc' : cacheOk (mark_sent now o st).2.cache := by
      rw [hcache]
      exact hc
    have hk : oppUri o.id ∈ (mark_sent now o st).2.store.map Prod.fst := by
      rw [hstore]
      exact mem_keys_storeSet _ _ _ _
        (List.mem_map_of_mem Prod.fst (storeGet_mem _ _ _ hget))
    have hmem := pendingLoads_mem (mark_sent now o st).2 (oppUri o.id) rec
      hc' hids' hk (strStartsWith_oppUri o.id) (strEndsWith_oppUri o.id)
      hget' hpend
    simp only [get_pending_opportunities]
    exact (sortByPriorityDesc_perm _).mem_iff.2 hmem

set_option maxRecDepth 8000 in
/-- Witness for C10: marking the pending record `exTieNewer` sent leaves
its `.../opportunities/a.json` record pending and a fresh
`get_pending_opportunities` still returns it. -/
theorem mark_sent_frame_witness :
    storeGet (mark_sent 50 exTieNewer exTieState).2.store (oppUri "a")
      = some exTieNewer
    ∧ exTieNewer ∈ (get_pending_opportunities
        (mark_sent 50 exTieNewer exTieState).2).1 := by
  have h := mark_sent_frame 50 exTieNewer exTieNewer exTieState
    (by decide) (by decide)
    (fun p hp => absurd hp (List.not_mem_nil p))
    (by intro p hp
        simp only [exTieState] at hp
        rcases List.mem_cons.1 hp with rfl | hp'
        · decide
        · rcases List.mem_cons.1 hp' with rfl | hp''
          · decide
          · cases hp'')
    (by decide)
  exact ⟨h.2.2.2.1, h.2.2.2.2⟩

/-! ## C2 and C5: the dispatch loop -/

theorem countGet_countSet_self (m : List (Int × Nat)) (d : Int) (n : Nat) :
    countGet (countSet m d n) d = n := by
  induction m with
  | nil => simp [countSet, countGet]
  | cons head rest ih =>
      obtain ⟨k, v⟩ := head
      by_cases h : k = d
      · subst h
        simp [countSet, countGet]
      · simp [countSet, countGet, h, ih]

theorem countGet_countSet_ne (m : List (Int × Nat)) (d d' : Int) (n : Nat)
    (h : d' ≠ d) : countGet (countSet m d n) d' = countGet m d' := by
  induction m with
  | nil => simp [countSet, countGet, Ne.symm h]
  | cons head rest ih =>
      obtain ⟨k, v⟩ := head
      by_cases hk : k = d
      · subst hk
        simp [countSet, countGet, Ne.symm h]
      · simp [countSet, countGet, hk, ih]

theorem exploreStep_count (cfg : SmartProactiveCfg) (env : TickEnv)
    (ps : PulseState) :
    (exploreStep cfg env ps).today_count = ps.today_count := by
  unfold exploreStep
  split
  · rfl
  · rfl

theorem should_send_true_store (now : Int) (opp : Opportunity)
    (st : TrackerState) (h : (should_send now opp st).1 = true) :
    (should_send now opp st).2.2.store = st.store := by
  unfold should_send at h ⊢
  by_cases h1 : dupScan now opp (get_recent_sent now 30 st).1 = true
  · rw [if_pos h1] at h
    cases h
  · rw [if_neg h1] at h ⊢
    by_cases h2 : opp.status ≠ OpportunityStatus.pending
    · rw [if_pos h2] at h
      cases h
    · rw [if_neg h2] at h ⊢
      by_cases h3 : opp.reminder_count ≥ 3
      · rw [if_pos h3] at h
        cases h
      · rw [if_neg h3]
        exact get_recent_sent_store now 30 st

theorem sendLoop_stopped (cfg : SmartProactiveCfg) (env : TickEnv)
    (opps : List Opportunity) (st : TrackerState) (count attempt : Nat)
    (sentM : List String) (delivered : Nat)
    (h : count ≥ cfg.max_per_day) :
    sendLoop cfg env opps st count attempt sentM delivered
      = Except.ok (st, count, sentM, delivered) := by
  cases opps with
  | nil => rfl
  | cons opp rest =>
      simp only [sendLoop]
      rw [if_pos h]

theorem sendLoop_ok_of_no_fail (cfg : SmartProactiveCfg) (env : TickEnv)
    (hnf : ∀ k, env.sendFail k = false) :
    ∀ (opps : List Opportunity) (st : TrackerState) (count attempt : Nat)
      (sentM : List String) (delivered : Nat),
      ∃ stF cF sMF dF,
        sendLoop cfg env opps st count attempt sentM delivered
          = Except.ok (stF, cF, sMF, dF)
        ∧ count ≤ cF
        ∧ (count ≤ cfg.max_per_day → cF ≤ cfg.max_per_day)
        ∧ dF = delivered + (cF - count) := by
  intro opps
  induction opps with
  | nil =>
      intro st count attempt sentM delivered
      exact ⟨st, count, sentM, delivered, rfl, Nat.le_refl _, fun h => h, by omega⟩
  | cons opp rest ih =>
      intro st count attempt sentM delivered
      by_cases hcap : count ≥ cfg.max_per_day
      · refine ⟨st, count, sentM, delivered, ?_, Nat.le_refl _, fun h => h, by omega⟩
        exact sendLoop_stopped cfg env _ st count attempt sentM delivered hcap
      · rcases hacc : (should_send env.now opp st).1 with - | -
        · obtain ⟨stF, cF, sMF, dF, hsl, hle, hc, hd⟩ :=
            ih (should_send env.now opp st).2.2 count attempt sentM delivered
          refine ⟨stF, cF, sMF, dF, ?_, hle, hc, hd⟩
          simp only [sendLoop]
          rw [if_neg hcap]
          simp only [hacc, Bool.false_eq_true, if_false]
          exact hsl
        · obtain ⟨stF, cF, sMF, dF, hsl, hle, hc, hd⟩ :=
            ih _ (count + 1) (attempt + 1) _ (delivered + 1)
          refine ⟨stF, cF, sMF, dF, ?_, by omega, fun h => hc (by omega), by omega⟩
          simp only [sendLoop]
          rw [if_neg hcap]
          simp only [hacc, if_true, hnf attempt, Bool.false_eq_true, if_false]
          exact hsl

theorem proactive_tick_no_fail_spec (cfg : SmartProactiveCfg) (env : TickEnv)
    (ps : PulseState) (hnf : ∀ k, env.sendFail k = false) :
    (∀ d', d' ≠ dateOf env.now →
        countGet (proactive_tick cfg env ps).1.today_count d'
          = countGet ps.today_count d')
    ∧ countGet ps.today_count (dateOf env.now)
        ≤ countGet (proactive_tick cfg env ps).1.today_count (dateOf env.now)
    ∧ (countGet (proactive_tick cfg env ps).1.today_count (dateOf env.now)
          ≤ cfg.max_per_day
        ∨ countGet (proactive_tick cfg env ps).1.today_count (dateOf env.now)
          = countGet ps.today_count (dateOf env.now))
    ∧ (proactive_tick cfg env ps).2
        = countGet (proactive_tick cfg env ps).1.today_count (dateOf env.now)
          - countGet ps.today_count (dateOf env.now) := by
  by_cases hen : (!cfg.enabled) = true
  · have hpt : proactive_tick cfg env ps = (ps, 0) := by
      unfold proactive_tick pulse_check
      rw [if_pos hen]
    rw [hpt]
    exact ⟨fun d' _ => rfl, Nat.le_refl _, Or.inr rfl, by simp⟩
  · by_cases hcap : countGet ps.today_count (dateOf env.now) ≥ cfg.max_per_day
    · have hpt : proactive_tick cfg env ps = (ps, 0) := by
        unfold proactive_tick pulse_check
        rw [if_neg hen, if_pos hcap]
      rw [hpt]
      exact ⟨fun d' _ => rfl, Nat.le_refl _, Or.inr rfl, by simp⟩
    · obtain ⟨stF, cF, sMF, dF, hsl, hle, hc, hd⟩ :=
        sendLoop_ok_of_no_fail cfg env hnf
          (get_pending_opportunities (exploreStep cfg env ps).tracker).1
          (get_pending_opportunities (exploreStep cfg env ps).tracker).2
          (countGet ps.today_count (dateOf env.now)) 0 [] 0
      have hpt : proactive_tick cfg env ps
          = ({ exploreStep cfg env ps with
                tracker := stF
                today_count := countSet (exploreStep cfg env ps).today_count
                  (dateOf env.now) cF }, dF) := by
        unfold proactive_tick pulse_check
        rw [if_neg hen, if_neg hcap, hsl]
      rw [hpt]
      refine ⟨?_, ?_, ?_, ?_⟩
      · intro d' hd'
        show countGet (countSet (exploreStep cfg env ps).today_count
          (dateOf env.now) cF) d' = countGet ps.today_count d'
        rw [countGet_countSet_ne _ _ _ _ hd', exploreStep_count]
      · show countGet ps.today_count (dateOf env.now)
          ≤ countGet (countSet (exploreStep cfg env ps).today_count
            (dateOf env.now) cF) (dateOf env.now)
        rw [countGet_countSet_self]
        exact hle
      · refine Or.inl ?_
        show countGet (countSet (exploreStep cfg env ps).today_count
          (dateOf env.now) cF) (dateOf env.now) ≤ cfg.max_per_day
        rw [countGet_countSet_self]
        exact hc (by omega)
      · show dF = countGet (countSet (exploreStep cfg env ps).today_count
          (dateOf env.now) cF) (dateOf env.now)
            - countGet ps.today_count (dateOf env.now)
        rw [countGet_countSet_self]
        omega

theorem runTicks_delivered_bound (cfg : SmartProactiveCfg) :
    ∀ (envs : List TickEnv) (ps : PulseState),
      (∀ env ∈ envs, ∀ k, env.sendFail k = false) →
      ∀ d, deliveredOn (runTicks cfg ps envs).2 d
        ≤ cfg.max_per_day - countGet ps.today_count d := by
  intro envs
  induction envs with
  | nil =>
      intro ps _ d
      simp [runTicks, deliveredOn]
  | cons env rest ih =>
      intro ps hnf d
      have hnf0 : ∀ k, env.sendFail k = false :=
        hnf env (List.mem_cons_self _ _)
      have hnfr : ∀ e ∈ rest, ∀ k, e.sendFail k = false :=
        fun e he => hnf e (List.mem_cons_of_mem _ he)
      obtain ⟨hA, hB, hC, hD⟩ := proactive_tick_no_fail_spec cfg env ps hnf0
      have hIH := ih (proactive_tick cfg env ps).1 hnfr d
      simp only [runTicks, deliveredOn]
      by_cases hdate : dateOf env.now = d
      · subst hdate
        rw [if_pos (beq_self_eq_true _)]
        rcases hC with hC | hC
        · omega
        · omega
      · rw [if_neg (by simp [hdate])]
        have := hA d (fun hx => hdate hx.symm)
        omega

/-- C2 (amended): starting a dispatcher run with no messages counted
today, and provided no `sender.send` call raises during the run, the
total number of messages delivered on any calendar day never exceeds
`max_per_day` (first conjunct).  Unconditionally, a tick whose persisted
count has reached the cap is a no-op for dispatch (second conjunct), and
within one tick the send loop stops as soon as the count reaches the cap
(third conjunct).  Without the no-failure proviso the bound fails: a
send that raises after a successful send aborts the tick before step 6
persists the count, so the successful send is never counted — see the
counterexample. -/
theorem dispatch_daily_cap (cfg : SmartProactiveCfg) :
    (∀ (envs : List TickEnv) (tr0 : TrackerState) (le0 : Option Int),
      (∀ env ∈ envs, ∀ k, env.sendFail k = false) →
      ∀ d, deliveredOn (runTicks cfg
          { tracker := tr0, today_count := [], last_explore := le0 } envs).2 d
        ≤ cfg.max_per_day)
    ∧ (∀ (env : TickEnv) (ps : PulseState),
        countGet ps.today_count (dateOf env.now) ≥ cfg.max_per_day →
        proactive_tick cfg env ps = (ps, 0))
    ∧ (∀ (env : TickEnv) (opps : List Opportunity) (st : TrackerState)
        (count attempt : Nat) (sentM : List String) (delivered : Nat),
        count ≥ cfg.max_per_day →
        sendLoop cfg env opps st count attempt sentM delivered
          = Except.ok (st, count, sentM, delivered)) := by
  refine ⟨?_, ?_, ?_⟩
  · intro envs tr0 le0 hnf d
    have h := runTicks_delivered_bound cfg envs
      { tracker := tr0, today_count := [], last_explore := le0 } hnf d
    simpa [countGet] using h
  · intro env ps hcap
    unfold proactive_tick pulse_check
    by_cases hen : (!cfg.enabled) = true
    · rw [if_pos hen]
    · rw [if_neg hen, if_pos hcap]
  · intro env opps st count attempt sentM delivered hcap
    exact sendLoop_stopped cfg env opps st count attempt sentM delivered hcap

set_option maxRecDepth 20000 in
/-- Counterexample to C2 as stated: with `max_per_day = 2`, a first tick
whose second send raises delivers one message without persisting any
count (the exception aborts `pulse_check` before step 6), and a second
tick the same day delivers two more: three messages are delivered on one
calendar day, exceeding the cap. -/
theorem dispatch_daily_cap_counterexample :
    deliveredOn (runTicks cxCfg cxPs0 [cxEnv1, cxEnv2]).2 0 = 3
    ∧ cxCfg.max_per_day = 2
    ∧ ¬ deliveredOn (runTicks cxCfg cxPs0 [cxEnv1, cxEnv2]).2 0
        ≤ cxCfg.max_per_day := by
  refine ⟨by decide, by decide, by decide⟩

set_option maxRecDepth 20000 in
/-- Witness for the amended C2 theorem: a one-tick run with a failure-free
sender delivers at most `max_per_day = 2` messages; a capped state makes
the tick a no-op; a loop entered at the cap stops at once. -/
theorem dispatch_daily_cap_witness :
    deliveredOn (runTicks cxCfg
        { tracker := cxPs0.tracker, today_count := [], last_explore := none }
        [wEnvOk]).2 0 ≤ cxCfg.max_per_day
    ∧ proactive_tick cxCfg wEnvOk
        { tracker := cxPs0.tracker, today_count := [(0, 2)], last_explore := none }
      = ({ tracker := cxPs0.tracker, today_count := [(0, 2)], last_explore := none }, 0)
    ∧ sendLoop cxCfg wEnvOk [cxOppA] cxPs0.tracker 2 0 [] 0
      = Except.ok (cxPs0.tracker, 2, [], 0) := by
  refine ⟨(dispatch_daily_cap cxCfg).1 [wEnvOk] cxPs0.tracker none
      (by intro e he k
          rcases List.mem_cons.1 he with rfl | he'
          · rfl
          · cases he') 0,
    (dispatch_daily_cap cxCfg).2.1 wEnvOk _ (by decide),
    (dispatch_daily_cap cxCfg).2.2 wEnvOk [cxOppA] cxPs0.tracker 2 0 [] 0
      (by decide)⟩

/-- C5: a raising `sender.send` is treated as "send did not happen".
First conjunct: inside the send loop, when the current opportunity was
accepted and its send raises, the loop aborts at once with exactly the
tracker state `should_send` returned — whose store is the store from
before the iteration, so `mark_sent` was never applied (no write under
`.../sent/`, the record under `.../opportunities/` untouched) and the
delivered count is unchanged.  Second conjunct: the exception is caught
by `_proactive_tick`, and the dispatcher state it leaves behind carries
the per-day counter exactly as it was when the tick started — step 6
never ran, so not even the tick's earlier successful sends were
persisted into it. -/
theorem send_failure_leaves_state (cfg : SmartProactiveCfg) (env : TickEnv) :
    (∀ (opp : Opportunity) (rest : List Opportunity) (st : TrackerState)
        (count attempt : Nat) (sentM : List String) (delivered : Nat),
      ¬ count ≥ cfg.max_per_day →
      (should_send env.now opp st).1 = true →
      env.sendFail attempt = true →
      sendLoop cfg env (opp :: rest) st count attempt sentM delivered
        = Except.error ((should_send env.now opp st).2.2, delivered)
      ∧ ((should_send env.now opp st).2.2).store = st.store)
    ∧ (∀ (ps ps' : PulseState) (d : Nat),
        pulse_check cfg env ps = Except.error (ps', d) →
        (proactive_tick cfg env ps).1 = ps'
        ∧ ps'.today_count = ps.today_count) := by
  constructor
  · intro opp rest st count attempt sentM delivered hcap hacc hfail
    constructor
    · simp only [sendLoop]
      rw [if_neg hcap]
      simp only [hacc, if_true, hfail]
    · exact should_send_true_store env.now opp st hacc
  · intro ps ps' d h
    have hmain : ps'.today_count = ps.today_count := by
      unfold pulse_check at h
      by_cases hen : (!cfg.enabled) = true
      · rw [if_pos hen] at h
        cases h
      · rw [if_neg hen] at h
        by_cases hcap : countGet ps.today_count (dateOf env.now) ≥ cfg.max_per_day
        · rw [if_pos hcap] at h
          cases h
        · rw [if_neg hcap] at h
          rcases hsl : sendLoop cfg env
              (get_pending_opportunities (exploreStep cfg env ps).tracker).1
              (get_pending_opportunities (exploreStep cfg env ps).tracker).2
              (countGet ps.today_count (dateOf env.now)) 0 [] 0 with e | v
          · rw [hsl] at h
            obtain ⟨e1, e2⟩ := e
            simp only [Except.error.injEq, Prod.mk.injEq] at h
            rw [← h.1]
            exact congrArg PulseState.today_count
              (congrArg (fun x => x) rfl) |>.trans (exploreStep_count cfg env ps)
          · rw [hsl] at h
            obtain ⟨v1, v2, v3⟩ := v
            cases h
    refine ⟨?_, hmain⟩
    unfold proactive_tick
    rw [h]

set_option maxRecDepth 20000 in
/-- Witness for C5: in the first tick of the concrete run (`cxEnv1`
makes the second send raise), an accepted opportunity whose send raises
aborts the loop with the pre-send store, and the tick the exception is
caught in leaves the per-day counter exactly as it started. -/
theorem send_failure_leaves_state_witness :
    sendLoop cxCfg cxEnv1 [cxOppB] cxPs0.tracker 1 1 [] 1
      = Except.error ((should_send cxEnv1.now cxOppB cxPs0.tracker).2.2, 1)
    ∧ ((should_send cxEnv1.now cxOppB cxPs0.tracker).2.2).store
      = cxPs0.tracker.store
    ∧ (proactive_tick cxCfg cxEnv1 cxPs0).1.today_count = cxPs0.today_count := by
  have h1 := (send_failure_leaves_state cxCfg cxEnv1).1 cxOppB [] cxPs0.tracker
    1 1 [] 1 (by decide) (by decide) (by decide)
  have hbool : (match pulse_check cxCfg cxEnv1 cxPs0 with
      | Except.error _ => true
      | Except.ok _ => false) = true := by decide
  rcases hres : pulse_check cxCfg cxEnv1 cxPs0 with e | v
  · have h2 := (send_failure_leaves_state cxCfg cxEnv1).2 cxPs0 e.1 e.2
      (by rw [hres])
    refine ⟨h1.1, h1.2, ?_⟩
    rw [h2.1]
    exact h2.2
  · rw [hres] at hbool
    cases hbool

end Nanobot
